import Mathlib

/-!
Verification of the aggregate-consistency and budget-alerting engine of the
marcel-expense-backend repository, as a shallow embedding in Lean 4.

Monetary amounts, distances and rates are modelled as rationals.  Calendar
dates are modelled by a civil-date structure mirroring the JavaScript `Date`
fields used by the source (`getFullYear`, `getMonth` 0-based, `getDate`
1-based), together with the month-arithmetic and `setDate(0)` semantics the
budget code relies on.  Dynamic text fragments (ISO timestamps interpolated
into audit comments) are elided from the comment strings; no property below
depends on comment contents.
-/

/-- A civil date with the field conventions of a JavaScript `Date`:
`month` is 0-based (January = 0) and `day` is 1-based. -/
structure JSDate where
  year : Int
  month : Nat
  day : Nat
deriving DecidableEq

/-- JavaScript leap-year rule (proleptic Gregorian). -/
def isLeapYear (y : Int) : Bool :=
  y % 4 == 0 && (y % 100 != 0 || y % 400 == 0)

/-- Number of days of month `m` (0-based) of year `y`. -/
def daysInMonth (y : Int) (m : Nat) : Nat :=
  if m = 1 then (if isLeapYear y then 29 else 28)
  else if m = 3 ∨ m = 5 ∨ m = 8 ∨ m = 10 then 30
  else 31

theorem daysInMonth_ge (y : Int) (m : Nat) : 28 ≤ daysInMonth y m := by
  unfold daysInMonth
  split
  · split <;> omega
  · split <;> omega

/-- Normalisation of a day-of-month that may exceed the length of its month,
rolling into the following months, exactly as a JavaScript `Date` does when a
field is set out of range.  The recursion is driven by a fuel argument so the
function is structurally recursive; each roll removes at least 28 days from
`d`, so fuel `d` is always sufficient (`normDay_self` below recovers the
fixed-point equation for the in-range case). -/
def normDayGo : Nat → Int → Nat → Nat → JSDate
  | 0, y, m, d => ⟨y, m, d⟩
  | fuel + 1, y, m, d =>
      if d ≤ daysInMonth y m then ⟨y, m, d⟩
      else
        let d' := d - daysInMonth y m
        if m = 11 then normDayGo fuel (y + 1) 0 d' else normDayGo fuel y (m + 1) d'

def normDay (y : Int) (m : Nat) (d : Nat) : JSDate :=
  normDayGo d y m d

/-- `setMonth(getMonth() + k)` on a JS date: advance the month index keeping
the day-of-month, then normalise (months beyond December roll into later
years, and an out-of-range day rolls into the following months). -/
def setMonthsAdd (dt : JSDate) (k : Nat) : JSDate :=
  let t := dt.month + k
  normDay (dt.year + (t / 12 : Nat)) (t % 12) dt.day

/-- The last day of the month preceding month `m` (0-based) of year `y`. -/
def lastDayOfPrevMonth (y : Int) (m : Nat) : JSDate :=
  if m = 0 then ⟨y - 1, 11, 31⟩ else ⟨y, m - 1, daysInMonth y (m - 1)⟩

/-- `setDate(0)` on a JS date: day 0 is the last day of the previous month. -/
def setDateZero (dt : JSDate) : JSDate :=
  lastDayOfPrevMonth dt.year dt.month

/-- Budget period kinds, a closed enumeration of the strings accepted by the
analytics routes. -/
inductive Period where
  | monthly
  | quarterly
  | yearly
deriving DecidableEq

/-- Months spanned by each budget period. -/
def periodMonths : Period → Nat
  | .monthly => 1
  | .quarterly => 3
  | .yearly => 12

/-- The endDate computation of `addBudgetLimit` / `updateBudgetLimit` /
`createCategory` / `updateCategory` (the same block is repeated verbatim in
all four handlers): advance the month by 1, 3 or 12 and then `setDate(0)`.
The yearly branch of the source uses `setFullYear(getFullYear() + 1)`, which
is the same operation as advancing the month index by 12. -/
def deriveEndDate (p : Period) (start : JSDate) : JSDate :=
  setDateZero (setMonthsAdd start (periodMonths p))

/-- Adding `k` months to a civil date with the conventional clamping of the
day to the target month's length (so Jan 31 + 1 month = Feb 28). -/
def addMonthsClamped (dt : JSDate) (k : Nat) : JSDate :=
  let t := dt.month + k
  let y := dt.year + (t / 12 : Nat)
  let m := t % 12
  ⟨y, m, min dt.day (daysInMonth y m)⟩

/-- The day before a civil date. -/
def minusOneDay (dt : JSDate) : JSDate :=
  if dt.day ≤ 1 then lastDayOfPrevMonth dt.year dt.month
  else ⟨dt.year, dt.month, dt.day - 1⟩

/-- Modelled from the spec's words: "Derive endDate as the last day of the
period-length window starting at startDate (1 month, 3 months, or 12 months
respectively, minus one day)", i.e. startDate plus the period length in
months, minus one day. -/
def specEndDate (p : Period) (start : JSDate) : JSDate :=
  minusOneDay (addMonthsClamped start (periodMonths p))

/-- Chronological order on civil dates (the order `Date` comparisons in the
source induce on normalised dates). -/
def dateLe (a b : JSDate) : Bool :=
  decide (a.year < b.year) ||
    (decide (a.year = b.year) &&
      (decide (a.month < b.month) ||
        (decide (a.month = b.month) && decide (a.day ≤ b.day))))

/-- Strict chronological order on civil dates. -/
def dateLt (a b : JSDate) : Bool :=
  decide (a.year < b.year) ||
    (decide (a.year = b.year) &&
      (decide (a.month < b.month) ||
        (decide (a.month = b.month) && decide (a.day < b.day))))

theorem dateLe_total (a b : JSDate) : dateLe a b = true ∨ dateLe b a = true := by
  unfold dateLe
  simp only [Bool.or_eq_true, Bool.and_eq_true, decide_eq_true_eq]
  omega

/-! ## Expense records

Fields of the Expense document that the core logic reads.  Route-snapshot,
address and audit fields are omitted: no aggregate or budget computation
reads them.  `id` stands for the Mongo `_id`. -/

structure Expense where
  id : Nat
  user : Nat
  category : Nat
  distance : ℚ
  costPerKm : ℚ
  totalCost : ℚ
  journeyDate : JSDate
deriving DecidableEq

/-- `getMonth() + 1` of a journey date, as the controllers compute it. -/
def monthOf (d : JSDate) : Nat := d.month + 1

/-- `getFullYear()` of a journey date. -/
def yearOf (d : JSDate) : Int := d.year

/-- JavaScript truthiness of an optional numeric field: absent and `0` are
both falsy. -/
def truthyQ : Option ℚ → Bool
  | none => false
  | some x => x != 0

/-- JavaScript truthiness of an optional string field: absent and the empty
string are both falsy. -/
def truthyS : Option String → Bool
  | none => false
  | some s => s != ""

/-! ## Budget limits (Category model and analytics routes) -/

/-- A BudgetLimit subdocument of a Category. -/
structure BudgetLimit where
  amount : ℚ
  period : Period
  startDate : JSDate
  endDate : JSDate
  isActive : Bool
  notificationThreshold : ℚ
deriving DecidableEq

/-- The category fields the budget logic uses.  The name-uniqueness check and
the cached currentUsage snapshot are not modelled: no claim reads them. -/
structure Category where
  name : String
  isActive : Bool
  budgetLimits : List BudgetLimit
deriving DecidableEq

/-- One element of the `budgetLimits` array submitted to `createCategory` /
`updateCategory` (or the body of `addBudgetLimit`).  A period string outside
the accepted enumeration is modelled as an absent period: both are rejected
before any other effect, only with different messages. -/
structure LimitRequest where
  amount : Option ℚ
  period : Option Period
  startDate : Option JSDate
  isActive : Option Bool
  notificationThreshold : Option ℚ
deriving DecidableEq

/-- Validation and endDate derivation that `createCategory` performs for one
submitted budget limit.  `!limit.amount` (missing or zero) and
`limit.amount <= 0` are both rejected, so the guard is `amount ≤ 0`;
`notificationThreshold || 80` defaults a missing or zero threshold to 80. -/
def processLimit (l : LimitRequest) : Except String BudgetLimit :=
  match l.amount, l.period, l.startDate with
  | some a, some p, some sd =>
      if a ≤ 0 then .error "Budget amount must be greater than zero"
      else .ok
        { amount := a
          period := p
          startDate := sd
          endDate := deriveEndDate p sd
          isActive := l.isActive.getD true
          notificationThreshold :=
            if truthyQ l.notificationThreshold then l.notificationThreshold.getD 80 else 80 }
  | _, _, _ => .error "Budget limits require amount, period, and startDate"

/-- The overlap test of `createCategory` / `updateCategory`, applied to the
new limit `a` against an already-processed limit `b`:
`(startDate >= existingStart && startDate <= existingEnd) ||
 (endDate >= existingStart && endDate <= existingEnd) ||
 (startDate <= existingStart && endDate >= existingEnd)`,
guarded by equality of the period kinds.  Inactive limits are not excluded
from the scan. -/
def overlapJS (a b : BudgetLimit) : Bool :=
  decide (a.period = b.period) &&
    ((dateLe b.startDate a.startDate && dateLe a.startDate b.endDate) ||
     (dateLe b.startDate a.endDate && dateLe a.endDate b.endDate) ||
     (dateLe a.startDate b.startDate && dateLe b.endDate a.endDate))

/-- The validation loop of `createCategory` over the submitted budget-limit
array: each element is validated, given its derived endDate, and checked for
overlap against the limits processed so far. -/
def processLimitsLoop : List LimitRequest → List BudgetLimit → Except String (List BudgetLimit)
  | [], acc => .ok acc
  | l :: rest, acc =>
      match processLimit l with
      | .error e => .error e
      | .ok bl =>
          if acc.any (fun existing => overlapJS bl existing) then
            .error "Budget periods of the same type cannot overlap"
          else processLimitsLoop rest (acc ++ [bl])

/-- `createCategory`: validate the submitted budget limits (rejecting
intra-request overlaps) and store the category. -/
def createCategory (name : String) (isActive : Option Bool)
    (reqs : List LimitRequest) : Except String Category :=
  match processLimitsLoop reqs [] with
  | .error e => .error e
  | .ok ls => .ok { name := name, isActive := isActive.getD true, budgetLimits := ls }

/-- `addBudgetLimit` (POST /categories/:id/budget): derive the endDate and
push the new limit.  The handler performs no overlap check and, once the
category is found, cannot fail. -/
def addBudgetLimit (c : Category) (amount : ℚ) (period : Period)
    (startDate : JSDate) (nthr : Option ℚ) : Category :=
  let endDate := deriveEndDate period startDate
  { c with budgetLimits := c.budgetLimits ++
      [{ amount := amount
         period := period
         startDate := startDate
         endDate := endDate
         isActive := true
         notificationThreshold := if truthyQ nthr then nthr.getD 80 else 80 }] }

/-- The spec's notion of two limits' `[startDate, endDate]` ranges
intersecting: "start ≤ otherEnd AND end ≥ otherStart". -/
def rangesIntersect (a b : BudgetLimit) : Prop :=
  dateLe a.startDate b.endDate = true ∧ dateLe b.startDate a.endDate = true

theorem rangesIntersect_symm {a b : BudgetLimit} (h : rangesIntersect a b) :
    rangesIntersect b a := ⟨h.2, h.1⟩

/-- An actual intersection of ranges always trips the source's three-case
overlap test (for limits of the same period kind). -/
theorem overlapJS_of_intersect {a b : BudgetLimit} (hp : a.period = b.period)
    (h : rangesIntersect a b) : overlapJS a b = true := by
  rcases h with ⟨h1, h2⟩
  unfold overlapJS
  simp only [Bool.and_eq_true, Bool.or_eq_true, decide_eq_true_eq]
  refine ⟨hp, ?_⟩
  rcases dateLe_total b.startDate a.startDate with hs | hs
  · exact Or.inl (Or.inl ⟨hs, h1⟩)
  · rcases dateLe_total b.endDate a.endDate with he | he
    · exact Or.inr ⟨hs, he⟩
    · exact Or.inl (Or.inr ⟨h2, he⟩)

/-- The no-overlap relation the processed list maintains. -/
def limitsCompatible (a b : BudgetLimit) : Prop :=
  a.period = b.period → ¬ rangesIntersect a b

theorem processLimitsLoop_pairwise :
    ∀ (reqs : List LimitRequest) (acc ls : List BudgetLimit),
      acc.Pairwise limitsCompatible →
      processLimitsLoop reqs acc = .ok ls →
      ls.Pairwise limitsCompatible := by
  intro reqs
  induction reqs with
  | nil =>
      intro acc ls hacc h
      unfold processLimitsLoop at h
      cases h
      exact hacc
  | cons l rest ih =>
      intro acc ls hacc h
      unfold processLimitsLoop at h
      split at h
      next => cases h
      next bl hpl =>
        split at h
        next => cases h
        next hov =>
          refine ih (acc ++ [bl]) ls ?_ h
          rw [List.pairwise_append]
          refine ⟨hacc, List.pairwise_singleton _ _, ?_⟩
          intro x hx b hb
          rw [List.mem_singleton] at hb
          intro hper hint
          rw [hb] at hper hint
          have ho : overlapJS bl x = true :=
            overlapJS_of_intersect hper.symm (rangesIntersect_symm hint)
          exact hov (List.any_eq_true.mpr ⟨x, hx, ho⟩)

theorem normDay_self (y : Int) (m : Nat) (d : Nat) (h : d ≤ daysInMonth y m) :
    normDay y m d = ⟨y, m, d⟩ := by
  cases d with
  | zero => rfl
  | succ n => rw [normDay, normDayGo, if_pos h]

/-- For a start date on the first day of a month, the source's endDate
derivation agrees with the spec's "startDate plus the period, minus one
day". -/
theorem deriveEndDate_firstDay (p : Period) (y : Int) (m : Nat) :
    deriveEndDate p ⟨y, m, 1⟩ = specEndDate p ⟨y, m, 1⟩ := by
  have h := daysInMonth_ge (y + ((m + periodMonths p) / 12 : Nat)) ((m + periodMonths p) % 12)
  simp only [deriveEndDate, specEndDate, setMonthsAdd, addMonthsClamped, setDateZero,
    minusOneDay]
  rw [normDay_self _ _ _ (by omega)]
  rw [if_pos (Nat.min_le_left 1 _)]

/-! ## Budget usage and alerts (getBudgetUsage, Category.calculateBudgetUsage) -/

/-- `Category.calculateBudgetUsage`: total cost of the category's expenses
with journeyDate in the inclusive window `[startDate, endDate]`. -/
def calculateBudgetUsage (es : List Expense) (catId : Nat)
    (startDate endDate : JSDate) : ℚ :=
  ((es.filter (fun e =>
      e.category == catId && dateLe startDate e.journeyDate && dateLe e.journeyDate endDate)).map
    Expense.totalCost).sum

/-- Alert levels surfaced by the budget-usage query. -/
inductive AlertStatus where
  | normal
  | warning
  | exceeded
deriving DecidableEq

/-- `Math.round`: round half away from zero; for the non-negative values the
usage query produces this is rounding half up. -/
def jsRound (q : ℚ) : Int := ⌊q + 1 / 2⌋

/-- One element of the list `getBudgetUsage` responds with. -/
structure UsageRecord where
  period : Period
  startDate : JSDate
  endDate : JSDate
  budgetAmount : ℚ
  currentUsage : ℚ
  percentUsed : ℚ
  isOverBudget : Bool
  isNearThreshold : Bool
  alertStatus : AlertStatus
deriving DecidableEq

/-- The record `getBudgetUsage` builds for one active budget limit:
`percentUsed = usage / amount * 100`, over-budget when strictly above 100,
near-threshold when between the notification threshold and 100 inclusive;
the reported `percentUsed` is rounded to two decimals
(`Math.round(percentUsed * 100) / 100`), while the alert flags are computed
from the unrounded value. -/
def usageRecord (es : List Expense) (catId : Nat) (l : BudgetLimit) : UsageRecord :=
  let usage := calculateBudgetUsage es catId l.startDate l.endDate
  let percentUsed := usage / l.amount * 100
  let isOverBudget := decide (100 < percentUsed)
  let isNearThreshold :=
    decide (l.notificationThreshold ≤ percentUsed) && decide (percentUsed ≤ 100)
  { period := l.period
    startDate := l.startDate
    endDate := l.endDate
    budgetAmount := l.amount
    currentUsage := usage
    percentUsed := (jsRound (percentUsed * 100) : ℚ) / 100
    isOverBudget := isOverBudget
    isNearThreshold := isNearThreshold
    alertStatus :=
      if isOverBudget then .exceeded else if isNearThreshold then .warning else .normal }

/-- `getBudgetUsage`: one usage record per active budget limit of the
category. -/
def getBudgetUsage (es : List Expense) (catId : Nat) (c : Category) : List UsageRecord :=
  (c.budgetLimits.filter (fun l => l.isActive)).map (usageRecord es catId)

/-- Modelled from the spec's words: "exceeded" if usagePercent > 100;
"warning" if notificationThreshold ≤ usagePercent ≤ 100; else "normal". -/
def specAlertStatus (p thr : ℚ) : AlertStatus :=
  if 100 < p then .exceeded else if thr ≤ p ∧ p ≤ 100 then .warning else .normal

theorem usageRecord_alertStatus (es : List Expense) (catId : Nat) (l : BudgetLimit) :
    (usageRecord es catId l).alertStatus =
      specAlertStatus (calculateBudgetUsage es catId l.startDate l.endDate / l.amount * 100)
        l.notificationThreshold := by
  simp only [usageRecord, specAlertStatus]
  by_cases h1 : 100 < calculateBudgetUsage es catId l.startDate l.endDate / l.amount * 100
  · simp [h1]
  · by_cases h2 : l.notificationThreshold ≤
        calculateBudgetUsage es catId l.startDate l.endDate / l.amount * 100
    · simp [h1, h2, le_of_not_lt h1]
    · simp [h1, h2]

/-! ## Reports (Report model, reports controller)

The state models the records of one owner, as the claims quantify over the
operations of one owner: a list of that owner's expenses and of their monthly
reports.  Mongo generates fresh `_id`s on insert; the model mirrors this with
a `nextId` counter.  `findByIdAndUpdate` / `save` on a report are write-backs
keyed by the unique `(user, month, year)` index, here `(month, year)` within
the one owner's collection. -/

/-- Report workflow states. -/
inductive RStatus where
  | draft
  | submitted
  | approved
  | rejected
deriving DecidableEq

/-- Requester roles relevant to the controllers' checks. -/
inductive Role where
  | admin
  | user
deriving DecidableEq

/-- The authenticated caller of a request. -/
structure Requester where
  uid : Nat
  role : Role
deriving DecidableEq

/-- A monthly Report document. -/
structure Report where
  user : Nat
  month : Nat
  year : Int
  totalDistance : ℚ
  totalExpenseAmount : ℚ
  reimbursedAmount : ℚ
  pendingAmount : ℚ
  status : RStatus
  submittedAt : Option Int
  approvedAt : Option Int
  rejectedAt : Option Int
  comments : Option String
  expenses : List Nat
deriving DecidableEq

/-- Body of a PUT /reports/:id/status request (after express-validator:
`status` present and one of the four values; other fields optional). -/
structure StatusBody where
  status : RStatus
  reimbursedAmount : Option ℚ
  comments : Option String
deriving DecidableEq

/-- The enriched `req.body` that `updateReportStatus` hands to
`findByIdAndUpdate`: the submitted fields plus the fields the controller
assigns in its branches. -/
structure StatusUpdate where
  status : RStatus
  reimbursedAmount : Option ℚ
  pendingAmount : Option ℚ
  comments : Option String
  submittedAt : Option Int
  approvedAt : Option Int
  rejectedAt : Option Int
deriving DecidableEq

/-- `findByIdAndUpdate(id, req.body)`: every field present in the body
overwrites the stored field, absent fields are kept. -/
def applyStatusUpdate (r : Report) (u : StatusUpdate) : Report :=
  { r with
    status := u.status
    reimbursedAmount := u.reimbursedAmount.getD r.reimbursedAmount
    pendingAmount := u.pendingAmount.getD r.pendingAmount
    comments := match u.comments with | some c => some c | none => r.comments
    submittedAt := match u.submittedAt with | some t => some t | none => r.submittedAt
    approvedAt := match u.approvedAt with | some t => some t | none => r.approvedAt
    rejectedAt := match u.rejectedAt with | some t => some t | none => r.rejectedAt }

/-- `updateReportStatus` (PUT /reports/:id/status), after the report has been
found.  Branch structure of the source: a `submitted` request checks
ownership and draft status; `approved`/`rejected` requests check the admin
role and submitted status, with the approval computing reimbursement and
pending amounts and the rejection requiring a non-empty comment.  A request
whose status is `draft` falls through every guard and is written directly
("Anyone can revert to draft"). -/
def updateReportStatus (u : Requester) (rep : Report) (body : StatusBody)
    (now : Int) : Except String Report :=
  if body.status = .submitted then
    if rep.user ≠ u.uid then
      .error "Only the report owner can submit this report"
    else if rep.status ≠ .draft then
      .error "Can only submit reports that are in draft status"
    else
      .ok (applyStatusUpdate rep
        { status := .submitted
          reimbursedAmount := body.reimbursedAmount
          pendingAmount := none
          comments := body.comments
          submittedAt := some now
          approvedAt := none
          rejectedAt := none })
  else if body.status = .approved ∨ body.status = .rejected then
    if u.role ≠ .admin then
      .error "Only administrators can approve or reject reports"
    else if rep.status ≠ .submitted then
      .error "Can only approve or reject reports that are in submitted status"
    else if body.status = .approved then
      match body.reimbursedAmount with
      | some a =>
          if rep.totalExpenseAmount < a then
            .error "Reimbursed amount cannot exceed total expense amount"
          else
            .ok (applyStatusUpdate rep
              { status := .approved
                reimbursedAmount := some a
                pendingAmount := some (rep.totalExpenseAmount - a)
                comments := body.comments
                submittedAt := none
                approvedAt := some now
                rejectedAt := none })
      | none =>
          .ok (applyStatusUpdate rep
            { status := .approved
              reimbursedAmount := some rep.totalExpenseAmount
              pendingAmount := some 0
              comments := body.comments
              submittedAt := none
              approvedAt := some now
              rejectedAt := none })
    else
      if ¬ truthyS body.comments then
        .error "Comments are required when rejecting a report"
      else
        .ok (applyStatusUpdate rep
          { status := .rejected
            reimbursedAmount := body.reimbursedAmount
            pendingAmount := none
            comments := body.comments
            submittedAt := none
            approvedAt := none
            rejectedAt := some now })
  else
    .ok (applyStatusUpdate rep
      { status := body.status
        reimbursedAmount := body.reimbursedAmount
        pendingAmount := none
        comments := body.comments
        submittedAt := none
        approvedAt := none
        rejectedAt := none })

/-- `updateReportReimbursement` (PUT /reports/:id/reimburse), after the
report has been found: admin only, approved reports only, requires a
non-negative amount not exceeding the total, and recomputes pendingAmount.
`parseFloat`/`isNaN` handling of malformed numerals is not modelled: the
amount arrives as a number or is absent. -/
def updateReportReimbursement (u : Requester) (rep : Report)
    (amount : Option ℚ) (comments : Option String) : Except String Report :=
  if u.role ≠ .admin then
    .error "Only administrators can update reimbursement amounts"
  else if rep.status ≠ .approved then
    .error "Can only update reimbursement for approved reports"
  else
    match amount with
    | none => .error "Reimbursed amount is required"
    | some a =>
        if a < 0 then .error "Reimbursed amount must be a positive number"
        else if rep.totalExpenseAmount < a then
          .error "Reimbursed amount cannot exceed total expense amount"
        else
          .ok { rep with
            reimbursedAmount := a
            pendingAmount := rep.totalExpenseAmount - a
            comments := some (comments.getD "Reimbursement updated") }

/-! ## The owner's document store -/

/-- `findById` on the owner's expenses: the first (unique) document with this
id. -/
def lookupExp : List Expense → Nat → Option Expense
  | [], _ => none
  | e :: t, i => if e.id = i then some e else lookupExp t i

/-- `findByIdAndUpdate` on an expense: the document with this id is
replaced. -/
def saveExp : List Expense → Expense → List Expense
  | [], _ => []
  | e :: t, e' => (if e.id = e'.id then e' else e) :: saveExp t e'

/-- `deleteOne` on an expense. -/
def removeExp : List Expense → Nat → List Expense
  | [], _ => []
  | e :: t, i => if e.id = i then removeExp t i else e :: removeExp t i

/-- `Report.findOne({user, month, year})` within the one owner's reports. -/
def findReport : List Report → Nat → Int → Option Report
  | [], _, _ => none
  | r :: t, m, y => if r.month = m ∧ r.year = y then some r else findReport t m y

/-- `report.save()` / `findByIdAndUpdate`: write-back keyed by the unique
`(month, year)` index (within the one owner's reports). -/
def saveReport : List Report → Report → List Report
  | [], _ => []
  | r :: t, r' => (if r.month = r'.month ∧ r.year = r'.year then r' else r) :: saveReport t r'

/-- `Report.findByIdAndDelete` of the report at the given period. -/
def removeReport : List Report → Nat → Int → List Report
  | [], _, _ => []
  | r :: t, m, y =>
      if r.month = m ∧ r.year = y then removeReport t m y else r :: removeReport t m y

/-- The demotion block each expense mutation repeats: a submitted or approved
report touched by the mutation reverts to draft with an audit comment (the
timestamp interpolated into the comment is elided). -/
def demoteIfFinalized (r : Report) (msg : String) : Report :=
  if r.status = .submitted ∨ r.status = .approved then
    { r with status := .draft, comments := some msg }
  else r

/-- The state of one owner's data. -/
structure St where
  owner : Nat
  nextId : Nat
  expenses : List Expense
  reports : List Report
deriving DecidableEq

/-! ## Expense mutations (expenses controller) -/

/-- `createExpense`, for a request of the owner that already carries a
distance and a costPerKm (the map-service and settings-default paths only
produce these two numbers).  A future journeyDate is rejected.  The
controller defaults a missing/zero body totalCost to distance × costPerKm,
and the Expense model's pre-save hook then overwrites totalCost with
distance × costPerKm in either case, so the stored value is always the
product.  The monthly report for the journey's period is updated or lazily
created. -/
def createExpenseStep (s : St) (cat : Nat) (distance costPerKm : ℚ)
    (jd now : JSDate) : St :=
  if dateLt now jd then s
  else
    let e : Expense :=
      { id := s.nextId
        user := s.owner
        category := cat
        distance := distance
        costPerKm := costPerKm
        totalCost := distance * costPerKm
        journeyDate := jd }
    let m := monthOf jd
    let y := yearOf jd
    match findReport s.reports m y with
    | some rep =>
        let rep' := demoteIfFinalized
          { rep with
            totalDistance := rep.totalDistance + e.distance
            totalExpenseAmount := rep.totalExpenseAmount + e.totalCost
            pendingAmount := rep.pendingAmount + e.totalCost
            expenses := rep.expenses ++ [e.id] }
          "Report reverted to draft due to new expense added"
        { s with
          nextId := s.nextId + 1
          expenses := s.expenses ++ [e]
          reports := saveReport s.reports rep' }
    | none =>
        let fresh : Report :=
          { user := s.owner
            month := m
            year := y
            totalDistance := e.distance
            totalExpenseAmount := e.totalCost
            reimbursedAmount := 0
            pendingAmount := e.totalCost
            status := .draft
            submittedAt := none
            approvedAt := none
            rejectedAt := none
            comments := none
            expenses := [e.id] }
        { s with
          nextId := s.nextId + 1
          expenses := s.expenses ++ [e]
          reports := s.reports ++ [fresh] }

/-- Body of a PUT /expenses/:id request (the fields the aggregate logic
reads; place-id and address fields only feed the map service, which merely
fills `distance`). -/
structure UpdateBody where
  category : Option Nat
  distance : Option ℚ
  costPerKm : Option ℚ
  totalCost : Option ℚ
  journeyDate : Option JSDate
deriving DecidableEq

/-- The controller's totalCost recomputation:
`if (req.body.distance || req.body.costPerKm)` — a missing or zero field is
falsy — recompute `req.body.totalCost` from
`req.body.distance || expense.distance` and
`req.body.costPerKm || expense.costPerKm`.  A body carrying only a totalCost
is left untouched. -/
def recomputeCost (e : Expense) (b : UpdateBody) : UpdateBody :=
  if truthyQ b.distance || truthyQ b.costPerKm then
    let distance := if truthyQ b.distance then b.distance.getD 0 else e.distance
    let costPerKm := if truthyQ b.costPerKm then b.costPerKm.getD 0 else e.costPerKm
    { b with totalCost := some (distance * costPerKm) }
  else b

/-- `Expense.findByIdAndUpdate(id, req.body)`: present fields overwrite. -/
def applyUpdateBody (e : Expense) (b : UpdateBody) : Expense :=
  { e with
    category := b.category.getD e.category
    distance := b.distance.getD e.distance
    costPerKm := b.costPerKm.getD e.costPerKm
    totalCost := b.totalCost.getD e.totalCost
    journeyDate := b.journeyDate.getD e.journeyDate }

/-- `updateExpense`, for a request of the owner.  After the optional
totalCost recomputation the expense document is updated; then either the one
report of the unchanged period receives the delta, or the expense reference
and its contribution move from the old period's report to the (possibly
lazily created) new period's report.  The emptied old report is saved, not
deleted. -/
def updateExpenseStep (s : St) (i : Nat) (body : UpdateBody) : St :=
  match lookupExp s.expenses i with
  | none => s
  | some e =>
      let b := recomputeCost e body
      let prevDistance := e.distance
      let prevTotalCost := e.totalCost
      let prevMonth := monthOf e.journeyDate
      let prevYear := yearOf e.journeyDate
      let newDate := b.journeyDate.getD e.journeyDate
      let newMonth := monthOf newDate
      let newYear := yearOf newDate
      let e' := applyUpdateBody e b
      let es' := saveExp s.expenses e'
      if prevMonth = newMonth ∧ prevYear = newYear then
        match findReport s.reports newMonth newYear with
        | some rep =>
            let rep' := demoteIfFinalized
              { rep with
                totalDistance := rep.totalDistance - prevDistance + e'.distance
                totalExpenseAmount :=
                  rep.totalExpenseAmount - prevTotalCost + e'.totalCost
                pendingAmount := rep.pendingAmount - prevTotalCost + e'.totalCost }
              "Report reverted to draft due to expense update"
            { s with expenses := es', reports := saveReport s.reports rep' }
        | none => { s with expenses := es' }
      else
        let rs1 :=
          match findReport s.reports prevMonth prevYear with
          | some oldRep =>
              let oldRep' := demoteIfFinalized
                { oldRep with
                  expenses := oldRep.expenses.filter (fun j => j != i)
                  totalDistance := oldRep.totalDistance - prevDistance
                  totalExpenseAmount := oldRep.totalExpenseAmount - prevTotalCost
                  pendingAmount := oldRep.pendingAmount - prevTotalCost }
                "Report reverted to draft due to expense moved to different month"
              saveReport s.reports oldRep'
          | none => s.reports
        match findReport rs1 newMonth newYear with
        | some newRep =>
            let newRep' := demoteIfFinalized
              { newRep with
                expenses := newRep.expenses ++ [i]
                totalDistance := newRep.totalDistance + e'.distance
                totalExpenseAmount := newRep.totalExpenseAmount + e'.totalCost
                pendingAmount := newRep.pendingAmount + e'.totalCost }
              "Report reverted to draft due to expense added from another month"
            { s with expenses := es', reports := saveReport rs1 newRep' }
        | none =>
            let fresh : Report :=
              { user := e'.user
                month := newMonth
                year := newYear
                totalDistance := e'.distance
                totalExpenseAmount := e'.totalCost
                reimbursedAmount := 0
                pendingAmount := e'.totalCost
                status := .draft
                submittedAt := none
                approvedAt := none
                rejectedAt := none
                comments := none
                expenses := [i] }
            { s with expenses := es', reports := rs1 ++ [fresh] }

/-- `deleteExpense`, for a request of the owner: remove the reference and
contribution from the period's report, delete the report if its reference
list became empty, then delete the expense. -/
def deleteExpenseStep (s : St) (i : Nat) : St :=
  match lookupExp s.expenses i with
  | none => s
  | some e =>
      let m := monthOf e.journeyDate
      let y := yearOf e.journeyDate
      let rs' :=
        match findReport s.reports m y with
        | some rep =>
            let rep' := demoteIfFinalized
              { rep with
                expenses := rep.expenses.filter (fun j => j != i)
                totalDistance := rep.totalDistance - e.distance
                totalExpenseAmount := rep.totalExpenseAmount - e.totalCost
                pendingAmount := rep.pendingAmount - e.totalCost }
              "Report reverted to draft due to expense deletion"
            if rep'.expenses = [] then removeReport s.reports m y
            else saveReport s.reports rep'
        | none => s.reports
      { s with expenses := removeExp s.expenses i, reports := rs' }

/-- A status-route request against the report of period `(m, y)`: not-found
and controller errors leave the store unchanged. -/
def statusStep (s : St) (m : Nat) (y : Int) (u : Requester) (body : StatusBody)
    (now : Int) : St :=
  match findReport s.reports m y with
  | none => s
  | some rep =>
      match updateReportStatus u rep body now with
      | .error _ => s
      | .ok rep' => { s with reports := saveReport s.reports rep' }

/-- A reimbursement-route request against the report of period `(m, y)`. -/
def reimburseStep (s : St) (m : Nat) (y : Int) (u : Requester)
    (amount : Option ℚ) (comments : Option String) : St :=
  match findReport s.reports m y with
  | none => s
  | some rep =>
      match updateReportReimbursement u rep amount comments with
      | .error _ => s
      | .ok rep' => { s with reports := saveReport s.reports rep' }

/-- The operations of the core, with their canonical request payloads: the
owner's expense mutations, the owner's submission, and an administrator's
approval, rejection and reimbursement update. -/
inductive Op where
  | createExp (cat : Nat) (distance costPerKm : ℚ) (jd now : JSDate)
  | updateExp (i : Nat) (body : UpdateBody)
  | deleteExp (i : Nat)
  | submitReport (m : Nat) (y : Int) (now : Int)
  | approveReport (m : Nat) (y : Int) (adminId : Nat) (amount : Option ℚ) (now : Int)
  | rejectReport (m : Nat) (y : Int) (adminId : Nat) (comments : String) (now : Int)
  | reimburse (m : Nat) (y : Int) (adminId : Nat) (amount : ℚ)
deriving DecidableEq

/-- One request handled against the store. -/
def step (s : St) : Op → St
  | .createExp cat d c jd now => createExpenseStep s cat d c jd now
  | .updateExp i b => updateExpenseStep s i b
  | .deleteExp i => deleteExpenseStep s i
  | .submitReport m y now =>
      statusStep s m y ⟨s.owner, .user⟩ ⟨.submitted, none, none⟩ now
  | .approveReport m y a amt now =>
      statusStep s m y ⟨a, .admin⟩ ⟨.approved, amt, none⟩ now
  | .rejectReport m y a c now =>
      statusStep s m y ⟨a, .admin⟩ ⟨.rejected, none, some c⟩ now
  | .reimburse m y a amt =>
      reimburseStep s m y ⟨a, .admin⟩ (some amt) none

/-- The empty store of one owner. -/
def initSt (owner : Nat) : St :=
  { owner := owner, nextId := 0, expenses := [], reports := [] }

/-- A finite request sequence handled from the empty store. -/
def runOps (owner : Nat) (ops : List Op) : St :=
  ops.foldl step (initSt owner)

/-! ## Sums over referenced expenses -/

/-- The value `f` of the expense a reference resolves to (0 for a dangling
reference; the invariant below shows references never dangle). -/
def contribBy (f : Expense → ℚ) (es : List Expense) (i : Nat) : ℚ :=
  match lookupExp es i with
  | some e => f e
  | none => 0

/-- Sum of `f` over a report's expense references. -/
def sumBy (f : Expense → ℚ) (es : List Expense) (ids : List Nat) : ℚ :=
  (ids.map (contribBy f es)).sum


/-! ## Store lemmas -/

theorem lookupExp_append_of_some {es : List Expense} {i : Nat} {x : Expense}
    (h : lookupExp es i = some x) (l : List Expense) :
    lookupExp (es ++ l) i = some x := by
  induction es with
  | nil => cases h
  | cons a t ih =>
      rw [List.cons_append, lookupExp] at *
      by_cases ha : a.id = i
      · rwa [if_pos ha] at h ⊢
      · rw [if_neg ha] at h ⊢; exact ih h

theorem lookupExp_append_of_none {es : List Expense} {i : Nat}
    (h : lookupExp es i = none) (e : Expense) :
    lookupExp (es ++ [e]) i = if e.id = i then some e else none := by
  induction es with
  | nil => rfl
  | cons a t ih =>
      rw [List.cons_append, lookupExp] at *
      by_cases ha : a.id = i
      · rw [if_pos ha] at h; cases h
      · rw [if_neg ha] at h ⊢; exact ih h

theorem lookupExp_mem {es : List Expense} {i : Nat} {x : Expense}
    (h : lookupExp es i = some x) : x ∈ es ∧ x.id = i := by
  induction es with
  | nil => cases h
  | cons a t ih =>
      rw [lookupExp] at h
      by_cases ha : a.id = i
      · rw [if_pos ha] at h
        cases h
        exact ⟨List.mem_cons_self _ _, ha⟩
      · rw [if_neg ha] at h
        rcases ih h with ⟨h1, h2⟩
        exact ⟨List.mem_cons_of_mem _ h1, h2⟩

theorem lookupExp_eq_none {es : List Expense} {i : Nat}
    (h : ∀ e ∈ es, e.id ≠ i) : lookupExp es i = none := by
  induction es with
  | nil => rfl
  | cons a t ih =>
      rw [lookupExp, if_neg (h a (List.mem_cons_self _ _))]
      exact ih fun e he => h e (List.mem_cons_of_mem _ he)

theorem lookupExp_isSome_of_mem {es : List Expense} {e : Expense}
    (h : e ∈ es) : ∃ x, lookupExp es e.id = some x := by
  induction es with
  | nil => cases h
  | cons a t ih =>
      rw [lookupExp]
      by_cases ha : a.id = e.id
      · exact ⟨a, if_pos ha⟩
      · rcases List.mem_cons.mp h with rfl | hm
        · exact absurd rfl ha
        · rw [if_neg ha]; exact ih hm

theorem lookupExp_saveExp_ne {es : List Expense} {j : Nat} (e' : Expense)
    (h : j ≠ e'.id) : lookupExp (saveExp es e') j = lookupExp es j := by
  induction es with
  | nil => rfl
  | cons a t ih =>
      rw [saveExp, lookupExp, lookupExp]
      by_cases ha : a.id = e'.id
      · rw [if_pos ha, if_neg (fun hh : e'.id = j => h hh.symm),
          if_neg (fun hh : a.id = j => h (ha ▸ hh).symm)]
        exact ih
      · rw [if_neg ha]
        by_cases hj : a.id = j
        · rw [if_pos hj, if_pos hj]
        · rw [if_neg hj, if_neg hj]; exact ih

theorem lookupExp_saveExp_self {es : List Expense} {e' : Expense} {x : Expense}
    (h : lookupExp es e'.id = some x) :
    lookupExp (saveExp es e') e'.id = some e' := by
  induction es with
  | nil => cases h
  | cons a t ih =>
      rw [lookupExp] at h
      rw [saveExp, lookupExp]
      by_cases ha : a.id = e'.id
      · rw [if_pos ha, if_pos rfl]
      · rw [if_neg ha] at h
        rw [if_neg ha, if_neg ha]
        exact ih h

theorem lookupExp_removeExp_self (es : List Expense) (i : Nat) :
    lookupExp (removeExp es i) i = none := by
  induction es with
  | nil => rfl
  | cons a t ih =>
      rw [removeExp]
      by_cases ha : a.id = i
      · rw [if_pos ha]; exact ih
      · rw [if_neg ha, lookupExp, if_neg ha]; exact ih

theorem lookupExp_removeExp_ne {es : List Expense} {j i : Nat} (h : j ≠ i) :
    lookupExp (removeExp es i) j = lookupExp es j := by
  induction es with
  | nil => rfl
  | cons a t ih =>
      rw [removeExp, lookupExp]
      by_cases ha : a.id = i
      · rw [if_pos ha, if_neg (fun hh : a.id = j => h ((hh.symm.trans ha).symm ▸ rfl))]
        exact ih
      · rw [if_neg ha, lookupExp]
        by_cases hj : a.id = j
        · rw [if_pos hj, if_pos hj]
        · rw [if_neg hj, if_neg hj]; exact ih

theorem mem_saveExp {es : List Expense} {e' x : Expense}
    (h : x ∈ saveExp es e') : x = e' ∨ x ∈ es := by
  induction es with
  | nil => cases h
  | cons a t ih =>
      rw [saveExp] at h
      rcases List.mem_cons.mp h with h1 | h1
      · by_cases ha : a.id = e'.id
        · rw [if_pos ha] at h1; exact Or.inl h1
        · rw [if_neg ha] at h1; exact Or.inr (h1 ▸ List.mem_cons_self _ _)
      · rcases ih h1 with h2 | h2
        · exact Or.inl h2
        · exact Or.inr (List.mem_cons_of_mem _ h2)

theorem ids_saveExp (es : List Expense) (e' : Expense) :
    (saveExp es e').map Expense.id =
      (es.map Expense.id).map (fun j => j) := by
  induction es with
  | nil => rfl
  | cons a t ih =>
      rw [saveExp, List.map_cons, List.map_cons, List.map_cons, ih]
      by_cases ha : a.id = e'.id
      · rw [if_pos ha, ha]
      · rw [if_neg ha]

theorem ids_saveExp_eq (es : List Expense) (e' : Expense) :
    (saveExp es e').map Expense.id = es.map Expense.id := by
  rw [ids_saveExp, List.map_id']

theorem mem_removeExp {es : List Expense} {i : Nat} {x : Expense}
    (h : x ∈ removeExp es i) : x ∈ es ∧ x.id ≠ i := by
  induction es with
  | nil => cases h
  | cons a t ih =>
      rw [removeExp] at h
      by_cases ha : a.id = i
      · rw [if_pos ha] at h
        rcases ih h with ⟨h1, h2⟩
        exact ⟨List.mem_cons_of_mem _ h1, h2⟩
      · rw [if_neg ha] at h
        rcases List.mem_cons.mp h with h1 | h1
        · exact ⟨h1 ▸ List.mem_cons_self _ _, h1 ▸ ha⟩
        · rcases ih h1 with ⟨h2, h3⟩
          exact ⟨List.mem_cons_of_mem _ h2, h3⟩

theorem mem_removeExp_of_mem {es : List Expense} {i : Nat} {x : Expense}
    (h : x ∈ es) (hx : x.id ≠ i) : x ∈ removeExp es i := by
  induction es with
  | nil => cases h
  | cons a t ih =>
      rw [removeExp]
      rcases List.mem_cons.mp h with rfl | h1
      · rw [if_neg hx]; exact List.mem_cons_self _ _
      · by_cases ha : a.id = i
        · rw [if_pos ha]; exact ih h1
        · rw [if_neg ha]; exact List.mem_cons_of_mem _ (ih h1)

theorem ids_removeExp_sublist (es : List Expense) (i : Nat) :
    ((removeExp es i).map Expense.id).Sublist (es.map Expense.id) := by
  induction es with
  | nil => exact List.Sublist.refl _
  | cons a t ih =>
      rw [removeExp]
      by_cases ha : a.id = i
      · rw [if_pos ha, List.map_cons]
        exact ih.trans (List.sublist_cons_self _ _)
      · rw [if_neg ha, List.map_cons, List.map_cons]
        exact ih.cons₂ _

theorem findReport_mem {rs : List Report} {m : Nat} {y : Int} {r : Report}
    (h : findReport rs m y = some r) : r ∈ rs ∧ r.month = m ∧ r.year = y := by
  induction rs with
  | nil => cases h
  | cons a t ih =>
      rw [findReport] at h
      by_cases ha : a.month = m ∧ a.year = y
      · rw [if_pos ha] at h
        cases h
        exact ⟨List.mem_cons_self _ _, ha⟩
      · rw [if_neg ha] at h
        rcases ih h with ⟨h1, h2⟩
        exact ⟨List.mem_cons_of_mem _ h1, h2⟩

theorem findReport_eq_none {rs : List Report} {m : Nat} {y : Int}
    (h : ∀ r ∈ rs, ¬(r.month = m ∧ r.year = y)) : findReport rs m y = none := by
  induction rs with
  | nil => rfl
  | cons a t ih =>
      rw [findReport, if_neg (h a (List.mem_cons_self _ _))]
      exact ih fun r hr => h r (List.mem_cons_of_mem _ hr)

theorem findReport_none_forall {rs : List Report} {m : Nat} {y : Int}
    (h : findReport rs m y = none) : ∀ r ∈ rs, ¬(r.month = m ∧ r.year = y) := by
  induction rs with
  | nil => intro r hr; cases hr
  | cons a t ih =>
      rw [findReport] at h
      by_cases ha : a.month = m ∧ a.year = y
      · rw [if_pos ha] at h; cases h
      · rw [if_neg ha] at h
        intro r hr
        rcases List.mem_cons.mp hr with rfl | h1
        · exact ha
        · exact ih h r h1

theorem findReport_isSome_of_mem {rs : List Report} {r : Report} (h : r ∈ rs) :
    ∃ x, findReport rs r.month r.year = some x := by
  induction rs with
  | nil => cases h
  | cons a t ih =>
      rw [findReport]
      by_cases ha : a.month = r.month ∧ a.year = r.year
      · exact ⟨a, if_pos ha⟩
      · rcases List.mem_cons.mp h with rfl | hm
        · exact absurd ⟨rfl, rfl⟩ ha
        · rw [if_neg ha]; exact ih hm

theorem findReport_saveReport_self {rs : List Report} {r0 r' : Report}
    {m : Nat} {y : Int} (h : findReport rs m y = some r0)
    (hm : r'.month = m) (hy : r'.year = y) :
    findReport (saveReport rs r') m y = some r' := by
  induction rs with
  | nil => cases h
  | cons a t ih =>
      rw [findReport] at h
      rw [saveReport]
      by_cases ha : a.month = m ∧ a.year = y
      · rw [if_pos (show a.month = r'.month ∧ a.year = r'.year from
          ⟨ha.1.trans hm.symm, ha.2.trans hy.symm⟩)]
        rw [findReport, if_pos ⟨hm, hy⟩]
      · rw [if_neg ha] at h
        rw [if_neg (show ¬(a.month = r'.month ∧ a.year = r'.year) from
          fun hc => ha ⟨hc.1.trans hm, hc.2.trans hy⟩)]
        rw [findReport, if_neg ha]
        exact ih h

theorem findReport_saveReport_ne {rs : List Report} {r' : Report}
    {m : Nat} {y : Int} (h : ¬(r'.month = m ∧ r'.year = y)) :
    findReport (saveReport rs r') m y = findReport rs m y := by
  induction rs with
  | nil => rfl
  | cons a t ih =>
      rw [saveReport, findReport, findReport]
      by_cases ha : a.month = r'.month ∧ a.year = r'.year
      · rw [if_pos ha, if_neg h, if_neg (by rw [ha.1, ha.2]; exact h)]
        exact ih
      · rw [if_neg ha]
        by_cases hb : a.month = m ∧ a.year = y
        · rw [if_pos hb, if_pos hb]
        · rw [if_neg hb, if_neg hb]; exact ih

theorem findReport_append_of_some {rs : List Report} {m : Nat} {y : Int}
    {x : Report} (h : findReport rs m y = some x) (l : List Report) :
    findReport (rs ++ l) m y = some x := by
  induction rs with
  | nil => cases h
  | cons a t ih =>
      rw [List.cons_append, findReport] at *
      by_cases ha : a.month = m ∧ a.year = y
      · rwa [if_pos ha] at h ⊢
      · rw [if_neg ha] at h ⊢; exact ih h

theorem findReport_append_of_none {rs : List Report} {m : Nat} {y : Int}
    (h : findReport rs m y = none) (r : Report) :
    findReport (rs ++ [r]) m y =
      if r.month = m ∧ r.year = y then some r else none := by
  induction rs with
  | nil => rfl
  | cons a t ih =>
      rw [List.cons_append, findReport] at *
      by_cases ha : a.month = m ∧ a.year = y
      · rw [if_pos ha] at h; cases h
      · rw [if_neg ha] at h ⊢; exact ih h

theorem findReport_removeReport_self (rs : List Report) (m : Nat) (y : Int) :
    findReport (removeReport rs m y) m y = none := by
  induction rs with
  | nil => rfl
  | cons a t ih =>
      rw [removeReport]
      by_cases ha : a.month = m ∧ a.year = y
      · rw [if_pos ha]; exact ih
      · rw [if_neg ha, findReport, if_neg ha]; exact ih

theorem mem_saveReport {rs : List Report} {r' x : Report}
    (h : x ∈ saveReport rs r') : x = r' ∨ x ∈ rs := by
  induction rs with
  | nil => cases h
  | cons a t ih =>
      rw [saveReport] at h
      rcases List.mem_cons.mp h with h1 | h1
      · by_cases ha : a.month = r'.month ∧ a.year = r'.year
        · rw [if_pos ha] at h1; exact Or.inl h1
        · rw [if_neg ha] at h1; exact Or.inr (h1 ▸ List.mem_cons_self _ _)
      · rcases ih h1 with h2 | h2
        · exact Or.inl h2
        · exact Or.inr (List.mem_cons_of_mem _ h2)

theorem mem_saveReport_of_mem {rs : List Report} {r' x : Report}
    (h : x ∈ rs) (hx : ¬(x.month = r'.month ∧ x.year = r'.year)) :
    x ∈ saveReport rs r' := by
  induction rs with
  | nil => cases h
  | cons a t ih =>
      rw [saveReport]
      rcases List.mem_cons.mp h with rfl | h1
      · rw [if_neg hx]; exact List.mem_cons_self _ _
      · by_cases ha : a.month = r'.month ∧ a.year = r'.year
        · rw [if_pos ha]; exact List.mem_cons_of_mem _ (ih h1)
        · rw [if_neg ha]; exact List.mem_cons_of_mem _ (ih h1)

/-- The `(month, year)` key of a report. -/
def rKey (r : Report) : Nat × Int := (r.month, r.year)

theorem keys_saveReport (rs : List Report) (r' : Report) :
    (saveReport rs r').map rKey = rs.map rKey := by
  induction rs with
  | nil => rfl
  | cons a t ih =>
      rw [saveReport, List.map_cons, List.map_cons, ih]
      by_cases ha : a.month = r'.month ∧ a.year = r'.year
      · rw [if_pos ha]
        have hk : rKey r' = rKey a := by rw [rKey, rKey, ha.1, ha.2]
        rw [hk]
      · rw [if_neg ha]

theorem keys_removeReport_sublist (rs : List Report) (m : Nat) (y : Int) :
    ((removeReport rs m y).map rKey).Sublist (rs.map rKey) := by
  induction rs with
  | nil => exact List.Sublist.refl _
  | cons a t ih =>
      rw [removeReport]
      by_cases ha : a.month = m ∧ a.year = y
      · rw [if_pos ha, List.map_cons]
        exact ih.trans (List.sublist_cons_self _ _)
      · rw [if_neg ha, List.map_cons, List.map_cons]
        exact ih.cons₂ _

theorem mem_removeReport {rs : List Report} {m : Nat} {y : Int} {x : Report}
    (h : x ∈ removeReport rs m y) : x ∈ rs := by
  induction rs with
  | nil => cases h
  | cons a t ih =>
      rw [removeReport] at h
      by_cases ha : a.month = m ∧ a.year = y
      · rw [if_pos ha] at h; exact List.mem_cons_of_mem _ (ih h)
      · rw [if_neg ha] at h
        rcases List.mem_cons.mp h with h1 | h1
        · exact h1 ▸ List.mem_cons_self _ _
        · exact List.mem_cons_of_mem _ (ih h1)

theorem mem_removeReport_of_mem {rs : List Report} {m : Nat} {y : Int}
    {x : Report} (h : x ∈ rs) (hx : ¬(x.month = m ∧ x.year = y)) :
    x ∈ removeReport rs m y := by
  induction rs with
  | nil => cases h
  | cons a t ih =>
      rw [removeReport]
      rcases List.mem_cons.mp h with rfl | h1
      · rw [if_neg hx]; exact List.mem_cons_self _ _
      · by_cases ha : a.month = m ∧ a.year = y
        · rw [if_pos ha]; exact ih h1
        · rw [if_neg ha]; exact List.mem_cons_of_mem _ (ih h1)

theorem key_inj {rs : List Report} (hnd : (rs.map rKey).Nodup)
    {r1 r2 : Report} (h1 : r1 ∈ rs) (h2 : r2 ∈ rs)
    (hk : r1.month = r2.month ∧ r1.year = r2.year) : r1 = r2 := by
  have : rKey r1 = rKey r2 := by rw [rKey, rKey, hk.1, hk.2]
  exact List.inj_on_of_nodup_map hnd h1 h2 this

/-! ## Sum lemmas -/

theorem sumBy_congr {f : Expense → ℚ} {es es' : List Expense} {ids : List Nat}
    (h : ∀ j ∈ ids, contribBy f es' j = contribBy f es j) :
    sumBy f es' ids = sumBy f es ids := by
  unfold sumBy
  induction ids with
  | nil => rfl
  | cons a t ih =>
      rw [List.map_cons, List.map_cons, List.sum_cons, List.sum_cons]
      rw [h a (List.mem_cons_self _ _), ih fun j hj => h j (List.mem_cons_of_mem _ hj)]

theorem sumBy_append_single (f : Expense → ℚ) (es : List Expense)
    (ids : List Nat) (i : Nat) :
    sumBy f es (ids ++ [i]) = sumBy f es ids + contribBy f es i := by
  unfold sumBy
  rw [List.map_append, List.sum_append, List.map_singleton, List.sum_singleton]

theorem sumBy_update {f : Expense → ℚ} {es es' : List Expense} {ids : List Nat}
    {i : Nat} (hnd : ids.Nodup) (hmem : i ∈ ids)
    (h : ∀ j ∈ ids, j ≠ i → contribBy f es' j = contribBy f es j) :
    sumBy f es' ids = sumBy f es ids - contribBy f es i + contribBy f es' i := by
  induction ids with
  | nil => cases hmem
  | cons a t ih =>
      rw [List.nodup_cons] at hnd
      unfold sumBy
      rw [List.map_cons, List.map_cons, List.sum_cons, List.sum_cons]
      rcases List.mem_cons.mp hmem with rfl | hmt
      · have ht : ∀ j ∈ t, contribBy f es' j = contribBy f es j := by
          intro j hj
          exact h j (List.mem_cons_of_mem _ hj) (fun hji => hnd.1 (hji ▸ hj))
        have : sumBy f es' t = sumBy f es t := sumBy_congr ht
        unfold sumBy at this
        rw [this]
        ring
      · have ha : contribBy f es' a = contribBy f es a :=
          h a (List.mem_cons_self _ _) (fun hai => hnd.1 (hai ▸ hmt))
        have ht := ih hnd.2 hmt fun j hj hji => h j (List.mem_cons_of_mem _ hj) hji
        unfold sumBy at ht
        rw [ha, ht]
        ring

theorem filter_ne_of_not_mem {t : List Nat} {i : Nat} (h : i ∉ t) :
    t.filter (fun j => j != i) = t := by
  induction t with
  | nil => rfl
  | cons a s ih =>
      rw [List.filter_cons]
      have ha : a ≠ i := fun hai => h (hai ▸ List.mem_cons_self _ _)
      rw [if_pos (by simp [ha])]
      rw [ih fun hm => h (List.mem_cons_of_mem _ hm)]

theorem sumBy_remove {f : Expense → ℚ} {es es' : List Expense} {ids : List Nat}
    {i : Nat} (hnd : ids.Nodup) (hmem : i ∈ ids)
    (h : ∀ j ∈ ids, j ≠ i → contribBy f es' j = contribBy f es j) :
    sumBy f es' (ids.filter (fun j => j != i)) =
      sumBy f es ids - contribBy f es i := by
  induction ids with
  | nil => cases hmem
  | cons a t ih =>
      rw [List.nodup_cons] at hnd
      rw [List.filter_cons]
      rcases List.mem_cons.mp hmem with rfl | hmt
      · rw [if_neg (by simp)]
        rw [filter_ne_of_not_mem hnd.1]
        have ht : sumBy f es' t = sumBy f es t := sumBy_congr fun j hj =>
          h j (List.mem_cons_of_mem _ hj) (fun hji => hnd.1 (hji ▸ hj))
        unfold sumBy at ht ⊢
        rw [List.map_cons, List.sum_cons, ht]
        ring
      · have ha : a ≠ i := fun hai => hnd.1 (hai ▸ hmt)
        rw [if_pos (by simp [ha])]
        have hc : contribBy f es' a = contribBy f es a :=
          h a (List.mem_cons_self _ _) ha
        have ht := ih hnd.2 hmt fun j hj hji => h j (List.mem_cons_of_mem _ hj) hji
        unfold sumBy at ht ⊢
        rw [List.map_cons, List.sum_cons, List.map_cons, List.sum_cons, hc, ht]
        ring

/-! ## The store invariant -/

theorem demote_month (r : Report) (msg : String) :
    (demoteIfFinalized r msg).month = r.month := by
  unfold demoteIfFinalized; split <;> rfl

theorem demote_year (r : Report) (msg : String) :
    (demoteIfFinalized r msg).year = r.year := by
  unfold demoteIfFinalized; split <;> rfl

theorem demote_user (r : Report) (msg : String) :
    (demoteIfFinalized r msg).user = r.user := by
  unfold demoteIfFinalized; split <;> rfl

theorem demote_expenses (r : Report) (msg : String) :
    (demoteIfFinalized r msg).expenses = r.expenses := by
  unfold demoteIfFinalized; split <;> rfl

theorem demote_totalDistance (r : Report) (msg : String) :
    (demoteIfFinalized r msg).totalDistance = r.totalDistance := by
  unfold demoteIfFinalized; split <;> rfl

theorem demote_totalExpenseAmount (r : Report) (msg : String) :
    (demoteIfFinalized r msg).totalExpenseAmount = r.totalExpenseAmount := by
  unfold demoteIfFinalized; split <;> rfl

theorem demote_pendingAmount (r : Report) (msg : String) :
    (demoteIfFinalized r msg).pendingAmount = r.pendingAmount := by
  unfold demoteIfFinalized; split <;> rfl

theorem demote_reimbursedAmount (r : Report) (msg : String) :
    (demoteIfFinalized r msg).reimbursedAmount = r.reimbursedAmount := by
  unfold demoteIfFinalized; split <;> rfl

/-- Well-formedness of one owner's store; all of it holds in every reachable
state (`wf_runOps`).  `distOk`/`costOk` are the totals invariant of the
claims; the remaining components are what makes the induction go through. -/
structure Wf (s : St) : Prop where
  idBound : ∀ e ∈ s.expenses, e.id < s.nextId
  idsNodup : (s.expenses.map Expense.id).Nodup
  keysNodup : (s.reports.map rKey).Nodup
  refsNodup : ∀ r ∈ s.reports, r.expenses.Nodup
  refsResolve : ∀ r ∈ s.reports, ∀ i ∈ r.expenses,
    ∃ e, lookupExp s.expenses i = some e ∧
      monthOf e.journeyDate = r.month ∧ yearOf e.journeyDate = r.year
  covered : ∀ e ∈ s.expenses, ∃ r ∈ s.reports,
    r.month = monthOf e.journeyDate ∧ r.year = yearOf e.journeyDate ∧
      e.id ∈ r.expenses
  userOk : ∀ r ∈ s.reports, r.user = s.owner
  expUserOk : ∀ e ∈ s.expenses, e.user = s.owner
  distOk : ∀ r ∈ s.reports,
    r.totalDistance = sumBy Expense.distance s.expenses r.expenses
  costOk : ∀ r ∈ s.reports,
    r.totalExpenseAmount = sumBy Expense.totalCost s.expenses r.expenses

theorem contribBy_eq_of_lookup {f : Expense → ℚ} {es es' : List Expense}
    {j : Nat} (h : lookupExp es' j = lookupExp es j) :
    contribBy f es' j = contribBy f es j := by
  unfold contribBy; rw [h]

theorem contribBy_some {f : Expense → ℚ} {es : List Expense} {j : Nat}
    {x : Expense} (h : lookupExp es j = some x) : contribBy f es j = f x := by
  unfold contribBy; rw [h]

theorem lookup_fresh_none {s : St} (hwf : Wf s) :
    lookupExp s.expenses s.nextId = none :=
  lookupExp_eq_none fun e he => Nat.ne_of_lt (hwf.idBound e he)

theorem fresh_not_ref {s : St} (hwf : Wf s) {r : Report} (hr : r ∈ s.reports) :
    s.nextId ∉ r.expenses := by
  intro hmem
  rcases hwf.refsResolve r hr _ hmem with ⟨e, he, _, _⟩
  rw [lookup_fresh_none hwf] at he
  cases he

/-- A referenced expense's period is its report's key. -/
theorem ref_home {s : St} (hwf : Wf s) {r : Report} (hr : r ∈ s.reports)
    {i : Nat} (hi : i ∈ r.expenses) {e : Expense}
    (he : lookupExp s.expenses i = some e) :
    r.month = monthOf e.journeyDate ∧ r.year = yearOf e.journeyDate := by
  rcases hwf.refsResolve r hr i hi with ⟨e', he', hm, hy⟩
  rw [he] at he'
  cases he'
  exact ⟨hm.symm, hy.symm⟩

/-- A report of another period does not reference the expense. -/
theorem not_ref_of_other_period {s : St} (hwf : Wf s) {r : Report}
    (hr : r ∈ s.reports) {i : Nat} {e : Expense}
    (he : lookupExp s.expenses i = some e)
    (hk : ¬(r.month = monthOf e.journeyDate ∧ r.year = yearOf e.journeyDate)) :
    i ∉ r.expenses :=
  fun hi => hk (ref_home hwf hr hi he)

/-- The initial store is well formed. -/
theorem wf_initSt (owner : Nat) : Wf (initSt owner) := by
  refine ⟨?_, List.nodup_nil, List.nodup_nil, ?_, ?_, ?_, ?_, ?_, ?_, ?_⟩ <;>
    intro x hx <;> cases hx

/-! ## Preservation of the invariant -/

/-- Appending a fresh expense and registering it in an existing report
(`createExpense`, report found) preserves the invariant. -/
theorem wf_save_new_ref {s : St} (hwf : Wf s) {rep rep' : Report} {m : Nat}
    {y : Int} (hrep : findReport s.reports m y = some rep) {e : Expense}
    (heid : e.id = s.nextId) (heu : e.user = s.owner)
    (hem : monthOf e.journeyDate = m) (hey : yearOf e.journeyDate = y)
    (hm' : rep'.month = rep.month) (hy' : rep'.year = rep.year)
    (hu' : rep'.user = rep.user)
    (hx' : rep'.expenses = rep.expenses ++ [e.id])
    (hd' : rep'.totalDistance = rep.totalDistance + e.distance)
    (hc' : rep'.totalExpenseAmount = rep.totalExpenseAmount + e.totalCost) :
    Wf { owner := s.owner, nextId := s.nextId + 1,
         expenses := s.expenses ++ [e],
         reports := saveReport s.reports rep' } := by
  obtain ⟨hrepmem, hrm, hry⟩ := findReport_mem hrep
  have hfresh : lookupExp s.expenses e.id = none := by
    rw [heid]; exact lookup_fresh_none hwf
  have he' : lookupExp (s.expenses ++ [e]) e.id = some e := by
    rw [lookupExp_append_of_none hfresh, if_pos rfl]
  have hlift : ∀ {j : Nat} {x : Expense}, lookupExp s.expenses j = some x →
      lookupExp (s.expenses ++ [e]) j = some x :=
    fun h => lookupExp_append_of_some h _
  have hcontrib : ∀ (f : Expense → ℚ) (r : Report), r ∈ s.reports →
      sumBy f (s.expenses ++ [e]) r.expenses = sumBy f s.expenses r.expenses := by
    intro f r hr
    refine sumBy_congr ?_
    intro j hj
    rcases hwf.refsResolve r hr j hj with ⟨x, hx, _, _⟩
    exact contribBy_eq_of_lookup (by rw [hlift hx, hx])
  have hrefs_ne : e.id ∉ rep.expenses := by
    rw [heid]; exact fresh_not_ref hwf hrepmem
  have hmem' : rep' ∈ saveReport s.reports rep' :=
    (findReport_mem (findReport_saveReport_self hrep (hm'.trans hrm) (hy'.trans hry))).1
  constructor
  · intro x hx
    rcases List.mem_append.mp hx with h | h
    · exact Nat.lt_succ_of_lt (hwf.idBound x h)
    · rw [List.mem_singleton] at h
      rw [h, heid]
      exact Nat.lt_succ_self _
  · rw [List.map_append, List.nodup_append]
    refine ⟨hwf.idsNodup, List.nodup_singleton _, ?_⟩
    intro a ha hb
    rcases List.mem_map.mp ha with ⟨x, hxmem, rfl⟩
    rw [List.map_singleton, List.mem_singleton] at hb
    have hlt := hwf.idBound x hxmem
    rw [hb, heid] at hlt
    exact absurd hlt (lt_irrefl _)
  · rw [keys_saveReport]; exact hwf.keysNodup
  · intro x hx
    rcases mem_saveReport hx with rfl | hxs
    · rw [hx', List.nodup_append]
      refine ⟨hwf.refsNodup rep hrepmem, List.nodup_singleton _, ?_⟩
      intro a ha hb
      rw [List.mem_singleton] at hb
      exact hrefs_ne (hb ▸ ha)
    · exact hwf.refsNodup x hxs
  · intro x hx i hi
    rcases mem_saveReport hx with rfl | hxs
    · rw [hx'] at hi
      rcases List.mem_append.mp hi with hiold | hinew
      · rcases hwf.refsResolve rep hrepmem i hiold with ⟨ex, hex, hm1, hy1⟩
        exact ⟨ex, hlift hex, by rw [hm']; exact hm1, by rw [hy']; exact hy1⟩
      · rw [List.mem_singleton] at hinew
        subst hinew
        exact ⟨e, he', by rw [hm']; exact hem.trans hrm.symm,
          by rw [hy']; exact hey.trans hry.symm⟩
    · rcases hwf.refsResolve x hxs i hi with ⟨ex, hex, hm1, hy1⟩
      exact ⟨ex, hlift hex, hm1, hy1⟩
  · intro x hx
    rcases List.mem_append.mp hx with hxe | hxnew
    · rcases hwf.covered x hxe with ⟨r, hr, h1, h2, h3⟩
      by_cases hk : r.month = rep'.month ∧ r.year = rep'.year
      · have hrrep : r = rep :=
          key_inj hwf.keysNodup hr hrepmem ⟨hk.1.trans hm', hk.2.trans hy'⟩
        refine ⟨rep', hmem', ?_, ?_, ?_⟩
        · rw [hm', ← hrrep]; exact h1
        · rw [hy', ← hrrep]; exact h2
        · rw [hx']; exact List.mem_append_left _ (hrrep ▸ h3)
      · exact ⟨r, mem_saveReport_of_mem hr hk, h1, h2, h3⟩
    · rw [List.mem_singleton] at hxnew
      subst hxnew
      refine ⟨rep', hmem', ?_, ?_, ?_⟩
      · rw [hm']; exact hrm.trans hem.symm
      · rw [hy']; exact hry.trans hey.symm
      · rw [hx']; exact List.mem_append_right _ (List.mem_singleton_self _)
  · intro x hx
    rcases mem_saveReport hx with rfl | hxs
    · exact hu'.trans (hwf.userOk rep hrepmem)
    · exact hwf.userOk x hxs
  · intro x hx
    rcases List.mem_append.mp hx with h | h
    · exact hwf.expUserOk x h
    · rw [List.mem_singleton] at h
      rw [h]; exact heu
  · intro x hx
    rcases mem_saveReport hx with rfl | hxs
    · rw [hd', hx', sumBy_append_single, hcontrib _ rep hrepmem,
        contribBy_some he', hwf.distOk rep hrepmem]
    · rw [hwf.distOk x hxs]
      exact (hcontrib _ x hxs).symm
  · intro x hx
    rcases mem_saveReport hx with rfl | hxs
    · rw [hc', hx', sumBy_append_single, hcontrib _ rep hrepmem,
        contribBy_some he', hwf.costOk rep hrepmem]
    · rw [hwf.costOk x hxs]
      exact (hcontrib _ x hxs).symm

/-- Appending a fresh expense together with its lazily created report
(`createExpense`, no report yet) preserves the invariant. -/
theorem wf_append_fresh_report {s : St} (hwf : Wf s) {m : Nat} {y : Int}
    (hrep : findReport s.reports m y = none) {e : Expense} {fresh : Report}
    (heid : e.id = s.nextId) (heu : e.user = s.owner)
    (hem : monthOf e.journeyDate = m) (hey : yearOf e.journeyDate = y)
    (hm' : fresh.month = m) (hy' : fresh.year = y) (hu' : fresh.user = s.owner)
    (hx' : fresh.expenses = [e.id])
    (hd' : fresh.totalDistance = e.distance)
    (hc' : fresh.totalExpenseAmount = e.totalCost) :
    Wf { owner := s.owner, nextId := s.nextId + 1,
         expenses := s.expenses ++ [e],
         reports := s.reports ++ [fresh] } := by
  have hfresh : lookupExp s.expenses e.id = none := by
    rw [heid]; exact lookup_fresh_none hwf
  have he' : lookupExp (s.expenses ++ [e]) e.id = some e := by
    rw [lookupExp_append_of_none hfresh, if_pos rfl]
  have hlift : ∀ {j : Nat} {x : Expense}, lookupExp s.expenses j = some x →
      lookupExp (s.expenses ++ [e]) j = some x :=
    fun h => lookupExp_append_of_some h _
  have hcontrib : ∀ (f : Expense → ℚ) (r : Report), r ∈ s.reports →
      sumBy f (s.expenses ++ [e]) r.expenses = sumBy f s.expenses r.expenses := by
    intro f r hr
    refine sumBy_congr ?_
    intro j hj
    rcases hwf.refsResolve r hr j hj with ⟨x, hx, _, _⟩
    exact contribBy_eq_of_lookup (by rw [hlift hx, hx])
  constructor
  · intro x hx
    rcases List.mem_append.mp hx with h | h
    · exact Nat.lt_succ_of_lt (hwf.idBound x h)
    · rw [List.mem_singleton] at h
      rw [h, heid]
      exact Nat.lt_succ_self _
  · rw [List.map_append, List.nodup_append]
    refine ⟨hwf.idsNodup, List.nodup_singleton _, ?_⟩
    intro a ha hb
    rcases List.mem_map.mp ha with ⟨x, hxmem, rfl⟩
    rw [List.map_singleton, List.mem_singleton] at hb
    have hlt := hwf.idBound x hxmem
    rw [hb, heid] at hlt
    exact absurd hlt (lt_irrefl _)
  · rw [List.map_append, List.nodup_append]
    refine ⟨hwf.keysNodup, List.nodup_singleton _, ?_⟩
    intro a ha hb
    rcases List.mem_map.mp ha with ⟨r, hrmem, rfl⟩
    rw [List.map_singleton, List.mem_singleton] at hb
    have : r.month = m ∧ r.year = y := by
      have h1 : rKey r = rKey fresh := hb
      rw [rKey, rKey, Prod.mk.injEq] at h1
      exact ⟨h1.1.trans hm', h1.2.trans hy'⟩
    exact findReport_none_forall hrep r hrmem this
  · intro x hx
    rcases List.mem_append.mp hx with h | h
    · exact hwf.refsNodup x h
    · rw [List.mem_singleton] at h
      rw [h, hx']
      exact List.nodup_singleton _
  · intro x hx i hi
    rcases List.mem_append.mp hx with h | h
    · rcases hwf.refsResolve x h i hi with ⟨ex, hex, hm1, hy1⟩
      exact ⟨ex, hlift hex, hm1, hy1⟩
    · rw [List.mem_singleton] at h
      subst h
      rw [hx', List.mem_singleton] at hi
      subst hi
      exact ⟨e, he', by rw [hm']; exact hem, by rw [hy']; exact hey⟩
  · intro x hx
    rcases List.mem_append.mp hx with hxe | hxnew
    · rcases hwf.covered x hxe with ⟨r, hr, h1, h2, h3⟩
      exact ⟨r, List.mem_append_left _ hr, h1, h2, h3⟩
    · rw [List.mem_singleton] at hxnew
      subst hxnew
      refine ⟨fresh, List.mem_append_right _ (List.mem_singleton_self _), ?_, ?_, ?_⟩
      · rw [hm']; exact hem.symm
      · rw [hy']; exact hey.symm
      · rw [hx']; exact List.mem_singleton_self _
  · intro x hx
    rcases List.mem_append.mp hx with h | h
    · exact hwf.userOk x h
    · rw [List.mem_singleton] at h
      rw [h]; exact hu'
  · intro x hx
    rcases List.mem_append.mp hx with h | h
    · exact hwf.expUserOk x h
    · rw [List.mem_singleton] at h
      rw [h]; exact heu
  · intro x hx
    rcases List.mem_append.mp hx with h | h
    · rw [hwf.distOk x h]
      exact (hcontrib _ x h).symm
    · rw [List.mem_singleton] at h
      subst h
      rw [hd', hx']
      unfold sumBy
      rw [List.map_singleton, List.sum_singleton, contribBy_some he']
  · intro x hx
    rcases List.mem_append.mp hx with h | h
    · rw [hwf.costOk x h]
      exact (hcontrib _ x h).symm
    · rw [List.mem_singleton] at h
      subst h
      rw [hc', hx']
      unfold sumBy
      rw [List.map_singleton, List.sum_singleton, contribBy_some he']

theorem wf_createExpenseStep {s : St} (hwf : Wf s) (cat : Nat) (d c : ℚ)
    (jd now : JSDate) : Wf (createExpenseStep s cat d c jd now) := by
  unfold createExpenseStep
  by_cases hfut : dateLt now jd = true
  · rw [if_pos hfut]; exact hwf
  · rw [if_neg hfut]
    dsimp only
    split
    next rep hrep =>
      refine wf_save_new_ref hwf hrep rfl rfl rfl rfl ?_ ?_ ?_ ?_ ?_ ?_
      · rw [demote_month]
      · rw [demote_year]
      · rw [demote_user]
      · rw [demote_expenses]
      · rw [demote_totalDistance]
      · rw [demote_totalExpenseAmount]
    next hrep =>
      exact wf_append_fresh_report hwf hrep rfl rfl rfl rfl rfl rfl rfl rfl rfl rfl

theorem mem_saveExp_strong {es : List Expense} {e' x : Expense}
    (h : x ∈ saveExp es e') : x = e' ∨ (x ∈ es ∧ x.id ≠ e'.id) := by
  induction es with
  | nil => cases h
  | cons a t ih =>
      rw [saveExp] at h
      rcases List.mem_cons.mp h with h1 | h1
      · by_cases ha : a.id = e'.id
        · rw [if_pos ha] at h1; exact Or.inl h1
        · rw [if_neg ha] at h1
          exact Or.inr ⟨h1 ▸ List.mem_cons_self _ _, h1 ▸ ha⟩
      · rcases ih h1 with h2 | h2
        · exact Or.inl h2
        · exact Or.inr ⟨List.mem_cons_of_mem _ h2.1, h2.2⟩

theorem mem_saveReport_strong {rs : List Report} {r' x : Report}
    (h : x ∈ saveReport rs r') :
    x = r' ∨ (x ∈ rs ∧ ¬(x.month = r'.month ∧ x.year = r'.year)) := by
  induction rs with
  | nil => cases h
  | cons a t ih =>
      rw [saveReport] at h
      rcases List.mem_cons.mp h with h1 | h1
      · by_cases ha : a.month = r'.month ∧ a.year = r'.year
        · rw [if_pos ha] at h1; exact Or.inl h1
        · rw [if_neg ha] at h1
          exact Or.inr ⟨h1 ▸ List.mem_cons_self _ _, h1 ▸ ha⟩
      · rcases ih h1 with h2 | h2
        · exact Or.inl h2
        · exact Or.inr ⟨List.mem_cons_of_mem _ h2.1, h2.2⟩

theorem mem_filter_ne {t : List Nat} {j i : Nat} :
    j ∈ t.filter (fun x => x != i) ↔ j ∈ t ∧ j ≠ i := by
  simp [List.mem_filter]

theorem applyUpdateBody_id (e : Expense) (b : UpdateBody) :
    (applyUpdateBody e b).id = e.id := rfl

theorem applyUpdateBody_user (e : Expense) (b : UpdateBody) :
    (applyUpdateBody e b).user = e.user := rfl

theorem applyUpdateBody_journeyDate (e : Expense) (b : UpdateBody) :
    (applyUpdateBody e b).journeyDate = b.journeyDate.getD e.journeyDate := rfl

theorem recomputeCost_journeyDate (e : Expense) (b : UpdateBody) :
    (recomputeCost e b).journeyDate = b.journeyDate := by
  unfold recomputeCost; split <;> rfl

theorem wf_updateExpenseStep {s : St} (hwf : Wf s) (i : Nat) (body : UpdateBody) :
    Wf (updateExpenseStep s i body) := by
  unfold updateExpenseStep
  split
  next => exact hwf
  next e he =>
    dsimp only
    obtain ⟨hemem, heid⟩ := lookupExp_mem he
    have he'id : (applyUpdateBody e (recomputeCost e body)).id = i := by
      rw [applyUpdateBody_id]; exact heid
    have hself :
        lookupExp (saveExp s.expenses (applyUpdateBody e (recomputeCost e body))) i =
          some (applyUpdateBody e (recomputeCost e body)) := by
      have h0 : lookupExp s.expenses (applyUpdateBody e (recomputeCost e body)).id = some e := by
        rw [he'id]; exact he
      have h2 := lookupExp_saveExp_self h0
      rwa [he'id] at h2
    have hothers : ∀ j : Nat, j ≠ i →
        lookupExp (saveExp s.expenses (applyUpdateBody e (recomputeCost e body))) j =
          lookupExp s.expenses j := by
      intro j hj
      exact lookupExp_saveExp_ne _ (by rw [he'id]; exact hj)
    have hidB : ∀ x ∈ saveExp s.expenses (applyUpdateBody e (recomputeCost e body)),
        x.id < s.nextId := by
      intro x hx
      rcases mem_saveExp_strong hx with rfl | ⟨hxs, _⟩
      · rw [he'id, ← heid]; exact hwf.idBound e hemem
      · exact hwf.idBound x hxs
    have hexpuser : ∀ x ∈ saveExp s.expenses (applyUpdateBody e (recomputeCost e body)),
        x.user = s.owner := by
      intro x hx
      rcases mem_saveExp_strong hx with rfl | ⟨hxs, _⟩
      · rw [applyUpdateBody_user]; exact hwf.expUserOk e hemem
      · exact hwf.expUserOk x hxs
    have hids := ids_saveExp_eq s.expenses (applyUpdateBody e (recomputeCost e body))
    obtain ⟨home, hhomemem, hhm, hhy, hhid0⟩ := hwf.covered e hemem
    have hhid : i ∈ home.expenses := heid ▸ hhid0
    have hsum_untouched : ∀ (f : Expense → ℚ) (r : Report), r ∈ s.reports →
        i ∉ r.expenses →
        sumBy f (saveExp s.expenses (applyUpdateBody e (recomputeCost e body))) r.expenses =
          sumBy f s.expenses r.expenses := by
      intro f r hr hnotin
      refine sumBy_congr ?_
      intro j hj
      exact contribBy_eq_of_lookup (hothers j (fun hji => hnotin (hji ▸ hj)))
    have he'jd : (applyUpdateBody e (recomputeCost e body)).journeyDate =
        (recomputeCost e body).journeyDate.getD e.journeyDate :=
      applyUpdateBody_journeyDate e (recomputeCost e body)
    split
    next hper =>
      -- same (month, year): the one report receives the delta
      split
      next rep hrep =>
        obtain ⟨hrepmem, hrm, hry⟩ := findReport_mem hrep
        have hhomerep : home = rep :=
          key_inj hwf.keysNodup hhomemem hrepmem
            ⟨(hhm.trans hper.1).trans hrm.symm, (hhy.trans hper.2).trans hry.symm⟩
        have hirep : i ∈ rep.expenses := hhomerep ▸ hhid
        have hnotin_untouched : ∀ r ∈ s.reports,
            ¬(r.month = rep.month ∧ r.year = rep.year) → i ∉ r.expenses := by
          intro r hr hk
          refine not_ref_of_other_period hwf hr he ?_
          intro hkk
          exact hk ⟨hkk.1.trans ((hper.1).trans hrm.symm),
            hkk.2.trans ((hper.2).trans hry.symm)⟩
        have hupd : ∀ f : Expense → ℚ,
            sumBy f (saveExp s.expenses (applyUpdateBody e (recomputeCost e body))) rep.expenses =
              sumBy f s.expenses rep.expenses - contribBy f s.expenses i +
                contribBy f (saveExp s.expenses (applyUpdateBody e (recomputeCost e body))) i :=
          fun f => sumBy_update (hwf.refsNodup rep hrepmem) hirep
            (fun j _ hji => contribBy_eq_of_lookup (hothers j hji))
        have hmem' : demoteIfFinalized
            { rep with
              totalDistance := rep.totalDistance - e.distance +
                (applyUpdateBody e (recomputeCost e body)).distance
              totalExpenseAmount := rep.totalExpenseAmount - e.totalCost +
                (applyUpdateBody e (recomputeCost e body)).totalCost
              pendingAmount := rep.pendingAmount - e.totalCost +
                (applyUpdateBody e (recomputeCost e body)).totalCost }
            "Report reverted to draft due to expense update" ∈
            saveReport s.reports (demoteIfFinalized
              { rep with
                totalDistance := rep.totalDistance - e.distance +
                  (applyUpdateBody e (recomputeCost e body)).distance
                totalExpenseAmount := rep.totalExpenseAmount - e.totalCost +
                  (applyUpdateBody e (recomputeCost e body)).totalCost
                pendingAmount := rep.pendingAmount - e.totalCost +
                  (applyUpdateBody e (recomputeCost e body)).totalCost }
              "Report reverted to draft due to expense update") :=
          (findReport_mem (findReport_saveReport_self hrep
            (by rw [demote_month]; exact hrm) (by rw [demote_year]; exact hry))).1
        constructor
        · exact hidB
        · rw [hids]; exact hwf.idsNodup
        · rw [keys_saveReport]; exact hwf.keysNodup
        · intro x hx
          rcases mem_saveReport_strong hx with rfl | ⟨hxs, _⟩
          · rw [demote_expenses]; exact hwf.refsNodup rep hrepmem
          · exact hwf.refsNodup x hxs
        · intro x hx j hj
          rcases mem_saveReport_strong hx with rfl | ⟨hxs, hxk⟩
          · rw [demote_expenses] at hj
            by_cases hji : j = i
            · subst hji
              refine ⟨applyUpdateBody e (recomputeCost e body), hself, ?_, ?_⟩
              · rw [demote_month, he'jd]; exact hrm.symm
              · rw [demote_year, he'jd]; exact hry.symm
            · rcases hwf.refsResolve rep hrepmem j hj with ⟨ex, hex, hm1, hy1⟩
              refine ⟨ex, ?_, ?_, ?_⟩
              · rw [hothers j hji]; exact hex
              · rw [demote_month]; exact hm1
              · rw [demote_year]; exact hy1
          · have hxk' : ¬(x.month = rep.month ∧ x.year = rep.year) := by
              intro hc
              exact hxk (by rw [demote_month, demote_year]; exact hc)
            have hnotin := hnotin_untouched x hxs hxk'
            rcases hwf.refsResolve x hxs j hj with ⟨ex, hex, hm1, hy1⟩
            refine ⟨ex, ?_, hm1, hy1⟩
            rw [hothers j (fun hji => hnotin (hji ▸ hj))]
            exact hex
        · intro x hx
          rcases mem_saveExp_strong hx with rfl | ⟨hxs, hxid⟩
          · refine ⟨_, hmem', ?_, ?_, ?_⟩
            · rw [demote_month, he'jd]; exact hrm
            · rw [demote_year, he'jd]; exact hry
            · rw [demote_expenses, he'id]; exact hirep
          · rcases hwf.covered x hxs with ⟨r0, hr0, k1, k2, k3⟩
            by_cases hk : r0.month = rep.month ∧ r0.year = rep.year
            · have hr0rep : r0 = rep := key_inj hwf.keysNodup hr0 hrepmem hk
              refine ⟨_, hmem', ?_, ?_, ?_⟩
              · rw [demote_month, ← hr0rep]; exact k1
              · rw [demote_year, ← hr0rep]; exact k2
              · rw [demote_expenses, ← hr0rep]; exact k3
            · refine ⟨r0, mem_saveReport_of_mem hr0 ?_, k1, k2, k3⟩
              intro hc
              rw [demote_month, demote_year] at hc
              exact hk hc
        · intro x hx
          rcases mem_saveReport_strong hx with rfl | ⟨hxs, _⟩
          · rw [demote_user]; exact hwf.userOk rep hrepmem
          · exact hwf.userOk x hxs
        · exact hexpuser
        · intro x hx
          rcases mem_saveReport_strong hx with rfl | ⟨hxs, hxk⟩
          · rw [demote_totalDistance, demote_expenses, hupd Expense.distance,
              contribBy_some he, contribBy_some hself, hwf.distOk rep hrepmem]
          · have hxk' : ¬(x.month = rep.month ∧ x.year = rep.year) := by
              intro hc
              exact hxk (by rw [demote_month, demote_year]; exact hc)
            rw [hwf.distOk x hxs]
            exact (hsum_untouched _ x hxs (hnotin_untouched x hxs hxk')).symm
        · intro x hx
          rcases mem_saveReport_strong hx with rfl | ⟨hxs, hxk⟩
          · rw [demote_totalExpenseAmount, demote_expenses, hupd Expense.totalCost,
              contribBy_some he, contribBy_some hself, hwf.costOk rep hrepmem]
          · have hxk' : ¬(x.month = rep.month ∧ x.year = rep.year) := by
              intro hc
              exact hxk (by rw [demote_month, demote_year]; exact hc)
            rw [hwf.costOk x hxs]
            exact (hsum_untouched _ x hxs (hnotin_untouched x hxs hxk')).symm
      next hrep =>
        exact absurd ⟨hhm.trans hper.1, hhy.trans hper.2⟩
          (findReport_none_forall hrep home hhomemem)
    next hper =>
      -- the journey moved to a different (month, year)
      have hsum_noni : ∀ (f : Expense → ℚ) (l : List Nat), i ∉ l →
          sumBy f (saveExp s.expenses (applyUpdateBody e (recomputeCost e body))) l =
            sumBy f s.expenses l := by
        intro f l hl
        refine sumBy_congr ?_
        intro j hj
        exact contribBy_eq_of_lookup (hothers j (fun hji => hl (hji ▸ hj)))
      cases holdc : findReport s.reports (monthOf e.journeyDate) (yearOf e.journeyDate) with
      | none => exact absurd ⟨hhm, hhy⟩ (findReport_none_forall holdc home hhomemem)
      | some oldRep =>
        dsimp only
        obtain ⟨holdmem, hom, hoy⟩ := findReport_mem holdc
        have hhomeold : home = oldRep :=
          key_inj hwf.keysNodup hhomemem holdmem ⟨hhm.trans hom.symm, hhy.trans hoy.symm⟩
        have hiold : i ∈ oldRep.expenses := hhomeold ▸ hhid
        set old2 : Report := demoteIfFinalized
          { oldRep with
            expenses := oldRep.expenses.filter (fun j => j != i)
            totalDistance := oldRep.totalDistance - e.distance
            totalExpenseAmount := oldRep.totalExpenseAmount - e.totalCost
            pendingAmount := oldRep.pendingAmount - e.totalCost }
          "Report reverted to draft due to expense moved to different month" with hold2def
        have hO_m : old2.month = oldRep.month := by rw [hold2def, demote_month]
        have hO_y : old2.year = oldRep.year := by rw [hold2def, demote_year]
        have hO_u : old2.user = oldRep.user := by rw [hold2def, demote_user]
        have hO_x : old2.expenses = oldRep.expenses.filter (fun j => j != i) := by
          rw [hold2def, demote_expenses]
        have hO_d : old2.totalDistance = oldRep.totalDistance - e.distance := by
          rw [hold2def, demote_totalDistance]
        have hO_c : old2.totalExpenseAmount = oldRep.totalExpenseAmount - e.totalCost := by
          rw [hold2def, demote_totalExpenseAmount]
        have hks : ¬(old2.month = monthOf ((recomputeCost e body).journeyDate.getD e.journeyDate) ∧
            old2.year = yearOf ((recomputeCost e body).journeyDate.getD e.journeyDate)) := by
          intro hc
          rw [hO_m] at hc
          rw [hO_y] at hc
          exact hper ⟨hom.symm.trans hc.1, hoy.symm.trans hc.2⟩
        have hfr1 : findReport (saveReport s.reports old2)
            (monthOf ((recomputeCost e body).journeyDate.getD e.journeyDate))
            (yearOf ((recomputeCost e body).journeyDate.getD e.journeyDate)) =
            findReport s.reports
              (monthOf ((recomputeCost e body).journeyDate.getD e.journeyDate))
              (yearOf ((recomputeCost e body).journeyDate.getD e.journeyDate)) :=
          findReport_saveReport_ne hks
        have hold2mem : old2 ∈ saveReport s.reports old2 :=
          (findReport_mem (findReport_saveReport_self holdc
            (by rw [hO_m]; exact hom) (by rw [hO_y]; exact hoy))).1
        have hsum_old2 : ∀ f : Expense → ℚ,
            sumBy f (saveExp s.expenses (applyUpdateBody e (recomputeCost e body)))
              (oldRep.expenses.filter (fun j => j != i)) =
              sumBy f s.expenses oldRep.expenses - contribBy f s.expenses i :=
          fun f => sumBy_remove (hwf.refsNodup oldRep holdmem) hiold
            (fun j _ hji => contribBy_eq_of_lookup (hothers j hji))
        split
        next newRep hnew =>
          have hnewrs : findReport s.reports
              (monthOf ((recomputeCost e body).journeyDate.getD e.journeyDate))
              (yearOf ((recomputeCost e body).journeyDate.getD e.journeyDate)) = some newRep := by
            rw [← hfr1]; exact hnew
          obtain ⟨hnmem, hnm, hny⟩ := findReport_mem hnewrs
          have hinew : i ∉ newRep.expenses := by
            refine not_ref_of_other_period hwf hnmem he ?_
            intro hkk
            exact hper ⟨hkk.1.symm.trans hnm, hkk.2.symm.trans hny⟩
          set new2 : Report := demoteIfFinalized
            { newRep with
              expenses := newRep.expenses ++ [i]
              totalDistance := newRep.totalDistance +
                (applyUpdateBody e (recomputeCost e body)).distance
              totalExpenseAmount := newRep.totalExpenseAmount +
                (applyUpdateBody e (recomputeCost e body)).totalCost
              pendingAmount := newRep.pendingAmount +
                (applyUpdateBody e (recomputeCost e body)).totalCost }
            "Report reverted to draft due to expense added from another month" with hnew2def
          have hN_m : new2.month = newRep.month := by rw [hnew2def, demote_month]
          have hN_y : new2.year = newRep.year := by rw [hnew2def, demote_year]
          have hN_u : new2.user = newRep.user := by rw [hnew2def, demote_user]
          have hN_x : new2.expenses = newRep.expenses ++ [i] := by
            rw [hnew2def, demote_expenses]
          have hN_d : new2.totalDistance = newRep.totalDistance +
              (applyUpdateBody e (recomputeCost e body)).distance := by
            rw [hnew2def, demote_totalDistance]
          have hN_c : new2.totalExpenseAmount = newRep.totalExpenseAmount +
              (applyUpdateBody e (recomputeCost e body)).totalCost := by
            rw [hnew2def, demote_totalExpenseAmount]
          have hnew2mem : new2 ∈ saveReport (saveReport s.reports old2) new2 :=
            (findReport_mem (findReport_saveReport_self hnew
              (by rw [hN_m]; exact hnm) (by rw [hN_y]; exact hny))).1
          have hnewRep_mem1 : newRep ∈ saveReport s.reports old2 := (findReport_mem hnew).1
          constructor
          · exact hidB
          · rw [hids]; exact hwf.idsNodup
          · rw [keys_saveReport, keys_saveReport]; exact hwf.keysNodup
          · intro x hx
            rcases mem_saveReport_strong hx with rfl | ⟨hx1, hk1⟩
            · rw [hN_x, List.nodup_append]
              refine ⟨hwf.refsNodup newRep hnmem, List.nodup_singleton _, ?_⟩
              intro a ha hb
              rw [List.mem_singleton] at hb
              exact hinew (hb ▸ ha)
            · rcases mem_saveReport_strong hx1 with rfl | ⟨hx2, hk2⟩
              · rw [hO_x]
                exact (hwf.refsNodup oldRep holdmem).filter _
              · exact hwf.refsNodup x hx2
          · intro x hx j hj
            rcases mem_saveReport_strong hx with rfl | ⟨hx1, hk1⟩
            · rw [hN_x] at hj
              rcases List.mem_append.mp hj with hjl | hjr
              · have hji : j ≠ i := fun hji => hinew (hji ▸ hjl)
                rcases hwf.refsResolve newRep hnmem j hjl with ⟨ex, hex, hm1, hy1⟩
                refine ⟨ex, ?_, ?_, ?_⟩
                · rw [hothers j hji]; exact hex
                · rw [hN_m]; exact hm1
                · rw [hN_y]; exact hy1
              · rw [List.mem_singleton] at hjr
                subst hjr
                refine ⟨applyUpdateBody e (recomputeCost e body), hself, ?_, ?_⟩
                · rw [applyUpdateBody_journeyDate, recomputeCost_journeyDate, hN_m]
                  rw [recomputeCost_journeyDate] at hnm
                  exact hnm.symm
                · rw [applyUpdateBody_journeyDate, recomputeCost_journeyDate, hN_y]
                  rw [recomputeCost_journeyDate] at hny
                  exact hny.symm
            · rcases mem_saveReport_strong hx1 with rfl | ⟨hx2, hk2⟩
              · rw [hO_x] at hj
                rcases mem_filter_ne.mp hj with ⟨hjo, hji⟩
                rcases hwf.refsResolve oldRep holdmem j hjo with ⟨ex, hex, hm1, hy1⟩
                refine ⟨ex, ?_, ?_, ?_⟩
                · rw [hothers j hji]; exact hex
                · rw [hO_m]; exact hm1
                · rw [hO_y]; exact hy1
              · have hxnotin : i ∉ x.expenses := by
                  refine not_ref_of_other_period hwf hx2 he ?_
                  intro hkk
                  exact hk2 ⟨hkk.1.trans (hom.symm.trans hO_m.symm),
                    hkk.2.trans (hoy.symm.trans hO_y.symm)⟩
                rcases hwf.refsResolve x hx2 j hj with ⟨ex, hex, hm1, hy1⟩
                refine ⟨ex, ?_, hm1, hy1⟩
                rw [hothers j (fun hji => hxnotin (hji ▸ hj))]
                exact hex
          · intro x hx
            rcases mem_saveExp_strong hx with rfl | ⟨hxs, hxid⟩
            · refine ⟨new2, hnew2mem, ?_, ?_, ?_⟩
              · rw [hN_m, applyUpdateBody_journeyDate]; exact hnm
              · rw [hN_y, applyUpdateBody_journeyDate]; exact hny
              · rw [hN_x, he'id]
                exact List.mem_append_right _ (List.mem_singleton_self _)
            · rw [he'id] at hxid
              rcases hwf.covered x hxs with ⟨r0, hr0, k1, k2, k3⟩
              by_cases hko : r0.month = oldRep.month ∧ r0.year = oldRep.year
              · have hr0old : r0 = oldRep := key_inj hwf.keysNodup hr0 holdmem hko
                have hold2_final : old2 ∈ saveReport (saveReport s.reports old2) new2 := by
                  refine mem_saveReport_of_mem hold2mem ?_
                  intro hc
                  refine hper ⟨?_, ?_⟩
                  · exact hom.symm.trans (hO_m.symm.trans (hc.1.trans (hN_m.trans hnm)))
                  · exact hoy.symm.trans (hO_y.symm.trans (hc.2.trans (hN_y.trans hny)))
                refine ⟨old2, hold2_final, ?_, ?_, ?_⟩
                · rw [hO_m, ← hr0old]; exact k1
                · rw [hO_y, ← hr0old]; exact k2
                · rw [hO_x]
                  exact mem_filter_ne.mpr ⟨hr0old ▸ k3, hxid⟩
              · by_cases hkn : r0.month = newRep.month ∧ r0.year = newRep.year
                · have hr0new : r0 = newRep := key_inj hwf.keysNodup hr0 hnmem hkn
                  refine ⟨new2, hnew2mem, ?_, ?_, ?_⟩
                  · rw [hN_m, ← hr0new]; exact k1
                  · rw [hN_y, ← hr0new]; exact k2
                  · rw [hN_x]
                    exact List.mem_append_left _ (hr0new ▸ k3)
                · have hr0_1 : r0 ∈ saveReport s.reports old2 :=
                    mem_saveReport_of_mem hr0
                      (fun hc => hko ⟨hc.1.trans hO_m, hc.2.trans hO_y⟩)
                  refine ⟨r0, mem_saveReport_of_mem hr0_1
                    (fun hc => hkn ⟨hc.1.trans hN_m, hc.2.trans hN_y⟩), k1, k2, k3⟩
          · intro x hx
            rcases mem_saveReport_strong hx with rfl | ⟨hx1, hk1⟩
            · rw [hN_u]; exact hwf.userOk newRep hnmem
            · rcases mem_saveReport_strong hx1 with rfl | ⟨hx2, hk2⟩
              · rw [hO_u]; exact hwf.userOk oldRep holdmem
              · exact hwf.userOk x hx2
          · exact hexpuser
          · intro x hx
            rcases mem_saveReport_strong hx with rfl | ⟨hx1, hk1⟩
            · rw [hN_d, hN_x, sumBy_append_single, hsum_noni _ _ hinew,
                contribBy_some hself, hwf.distOk newRep hnmem]
            · rcases mem_saveReport_strong hx1 with rfl | ⟨hx2, hk2⟩
              · rw [hO_d, hO_x, hsum_old2 Expense.distance, contribBy_some he,
                  hwf.distOk oldRep holdmem]
              · have hxnotin : i ∉ x.expenses := by
                  refine not_ref_of_other_period hwf hx2 he ?_
                  intro hkk
                  exact hk2 ⟨hkk.1.trans (hom.symm.trans hO_m.symm),
                    hkk.2.trans (hoy.symm.trans hO_y.symm)⟩
                rw [hwf.distOk x hx2]
                exact (hsum_noni _ _ hxnotin).symm
          · intro x hx
            rcases mem_saveReport_strong hx with rfl | ⟨hx1, hk1⟩
            · rw [hN_c, hN_x, sumBy_append_single, hsum_noni _ _ hinew,
                contribBy_some hself, hwf.costOk newRep hnmem]
            · rcases mem_saveReport_strong hx1 with rfl | ⟨hx2, hk2⟩
              · rw [hO_c, hO_x, hsum_old2 Expense.totalCost, contribBy_some he,
                  hwf.costOk oldRep holdmem]
              · have hxnotin : i ∉ x.expenses := by
                  refine not_ref_of_other_period hwf hx2 he ?_
                  intro hkk
                  exact hk2 ⟨hkk.1.trans (hom.symm.trans hO_m.symm),
                    hkk.2.trans (hoy.symm.trans hO_y.symm)⟩
                rw [hwf.costOk x hx2]
                exact (hsum_noni _ _ hxnotin).symm
        next hnone =>
          have hnors : findReport s.reports
              (monthOf ((recomputeCost e body).journeyDate.getD e.journeyDate))
              (yearOf ((recomputeCost e body).journeyDate.getD e.journeyDate)) = none := by
            rw [← hfr1]; exact hnone
          constructor
          · exact hidB
          · rw [hids]; exact hwf.idsNodup
          · rw [List.map_append, keys_saveReport, List.nodup_append]
            refine ⟨hwf.keysNodup, List.nodup_singleton _, ?_⟩
            intro a ha hb
            rcases List.mem_map.mp ha with ⟨r, hrmem, rfl⟩
            rw [List.map_singleton, List.mem_singleton] at hb
            rw [rKey, Prod.mk.injEq] at hb
            exact findReport_none_forall hnors r hrmem ⟨hb.1, hb.2⟩
          · intro x hx
            rcases List.mem_append.mp hx with hxl | hxr
            · rcases mem_saveReport_strong hxl with rfl | ⟨hx2, hk2⟩
              · rw [hO_x]
                exact (hwf.refsNodup oldRep holdmem).filter _
              · exact hwf.refsNodup x hx2
            · rw [List.mem_singleton] at hxr
              rw [hxr]
              exact List.nodup_singleton _
          · intro x hx j hj
            rcases List.mem_append.mp hx with hxl | hxr
            · rcases mem_saveReport_strong hxl with rfl | ⟨hx2, hk2⟩
              · rw [hO_x] at hj
                rcases mem_filter_ne.mp hj with ⟨hjo, hji⟩
                rcases hwf.refsResolve oldRep holdmem j hjo with ⟨ex, hex, hm1, hy1⟩
                refine ⟨ex, ?_, ?_, ?_⟩
                · rw [hothers j hji]; exact hex
                · rw [hO_m]; exact hm1
                · rw [hO_y]; exact hy1
              · have hxnotin : i ∉ x.expenses := by
                  refine not_ref_of_other_period hwf hx2 he ?_
                  intro hkk
                  exact hk2 ⟨hkk.1.trans (hom.symm.trans hO_m.symm),
                    hkk.2.trans (hoy.symm.trans hO_y.symm)⟩
                rcases hwf.refsResolve x hx2 j hj with ⟨ex, hex, hm1, hy1⟩
                refine ⟨ex, ?_, hm1, hy1⟩
                rw [hothers j (fun hji => hxnotin (hji ▸ hj))]
                exact hex
            · rw [List.mem_singleton] at hxr
              subst hxr
              rw [List.mem_singleton] at hj
              subst hj
              exact ⟨applyUpdateBody e (recomputeCost e body), hself,
                (applyUpdateBody_journeyDate e (recomputeCost e body)).symm ▸ rfl,
                (applyUpdateBody_journeyDate e (recomputeCost e body)).symm ▸ rfl⟩
          · intro x hx
            rcases mem_saveExp_strong hx with rfl | ⟨hxs, hxid⟩
            · refine ⟨_, List.mem_append_right _ (List.mem_singleton_self _), ?_, ?_, ?_⟩
              · rw [applyUpdateBody_journeyDate]
              · rw [applyUpdateBody_journeyDate]
              · rw [he'id]
                exact List.mem_singleton_self _
            · rw [he'id] at hxid
              rcases hwf.covered x hxs with ⟨r0, hr0, k1, k2, k3⟩
              by_cases hko : r0.month = oldRep.month ∧ r0.year = oldRep.year
              · have hr0old : r0 = oldRep := key_inj hwf.keysNodup hr0 holdmem hko
                refine ⟨old2, List.mem_append_left _ hold2mem, ?_, ?_, ?_⟩
                · rw [hO_m, ← hr0old]; exact k1
                · rw [hO_y, ← hr0old]; exact k2
                · rw [hO_x]
                  exact mem_filter_ne.mpr ⟨hr0old ▸ k3, hxid⟩
              · have hr0_1 : r0 ∈ saveReport s.reports old2 :=
                  mem_saveReport_of_mem hr0
                    (fun hc => hko ⟨hc.1.trans hO_m, hc.2.trans hO_y⟩)
                exact ⟨r0, List.mem_append_left _ hr0_1, k1, k2, k3⟩
          · intro x hx
            rcases List.mem_append.mp hx with hxl | hxr
            · rcases mem_saveReport_strong hxl with rfl | ⟨hx2, hk2⟩
              · rw [hO_u]; exact hwf.userOk oldRep holdmem
              · exact hwf.userOk x hx2
            · rw [List.mem_singleton] at hxr
              rw [hxr, applyUpdateBody_user]
              exact hwf.expUserOk e hemem
          · exact hexpuser
          · intro x hx
            rcases List.mem_append.mp hx with hxl | hxr
            · rcases mem_saveReport_strong hxl with rfl | ⟨hx2, hk2⟩
              · rw [hO_d, hO_x, hsum_old2 Expense.distance, contribBy_some he,
                  hwf.distOk oldRep holdmem]
              · have hxnotin : i ∉ x.expenses := by
                  refine not_ref_of_other_period hwf hx2 he ?_
                  intro hkk
                  exact hk2 ⟨hkk.1.trans (hom.symm.trans hO_m.symm),
                    hkk.2.trans (hoy.symm.trans hO_y.symm)⟩
                rw [hwf.distOk x hx2]
                exact (hsum_noni _ _ hxnotin).symm
            · rw [List.mem_singleton] at hxr
              subst hxr
              unfold sumBy
              rw [List.map_singleton, List.sum_singleton, contribBy_some hself]
          · intro x hx
            rcases List.mem_append.mp hx with hxl | hxr
            · rcases mem_saveReport_strong hxl with rfl | ⟨hx2, hk2⟩
              · rw [hO_c, hO_x, hsum_old2 Expense.totalCost, contribBy_some he,
                  hwf.costOk oldRep holdmem]
              · have hxnotin : i ∉ x.expenses := by
                  refine not_ref_of_other_period hwf hx2 he ?_
                  intro hkk
                  exact hk2 ⟨hkk.1.trans (hom.symm.trans hO_m.symm),
                    hkk.2.trans (hoy.symm.trans hO_y.symm)⟩
                rw [hwf.costOk x hx2]
                exact (hsum_noni _ _ hxnotin).symm
            · rw [List.mem_singleton] at hxr
              subst hxr
              unfold sumBy
              rw [List.map_singleton, List.sum_singleton, contribBy_some hself]

theorem mem_removeReport_strong {rs : List Report} {m : Nat} {y : Int}
    {x : Report} (h : x ∈ removeReport rs m y) :
    x ∈ rs ∧ ¬(x.month = m ∧ x.year = y) := by
  induction rs with
  | nil => cases h
  | cons a t ih =>
      rw [removeReport] at h
      by_cases ha : a.month = m ∧ a.year = y
      · rw [if_pos ha] at h
        rcases ih h with ⟨h1, h2⟩
        exact ⟨List.mem_cons_of_mem _ h1, h2⟩
      · rw [if_neg ha] at h
        rcases List.mem_cons.mp h with h1 | h1
        · exact ⟨h1 ▸ List.mem_cons_self _ _, h1 ▸ ha⟩
        · rcases ih h1 with ⟨h2, h3⟩
          exact ⟨List.mem_cons_of_mem _ h2, h3⟩

theorem wf_deleteExpenseStep {s : St} (hwf : Wf s) (i : Nat) :
    Wf (deleteExpenseStep s i) := by
  unfold deleteExpenseStep
  split
  next => exact hwf
  next e he =>
    dsimp only
    obtain ⟨hemem, heid⟩ := lookupExp_mem he
    obtain ⟨home, hhomemem, hhm, hhy, hhid0⟩ := hwf.covered e hemem
    have hhid : i ∈ home.expenses := heid ▸ hhid0
    have hothers : ∀ j : Nat, j ≠ i →
        lookupExp (removeExp s.expenses i) j = lookupExp s.expenses j :=
      fun j hj => lookupExp_removeExp_ne hj
    have hidB : ∀ x ∈ removeExp s.expenses i, x.id < s.nextId :=
      fun x hx => hwf.idBound x (mem_removeExp hx).1
    have hexpuser : ∀ x ∈ removeExp s.expenses i, x.user = s.owner :=
      fun x hx => hwf.expUserOk x (mem_removeExp hx).1
    have hidsnd : ((removeExp s.expenses i).map Expense.id).Nodup :=
      List.Nodup.sublist (ids_removeExp_sublist _ _) hwf.idsNodup
    have hsum_noni : ∀ (f : Expense → ℚ) (l : List Nat), i ∉ l →
        sumBy f (removeExp s.expenses i) l = sumBy f s.expenses l := by
      intro f l hl
      refine sumBy_congr ?_
      intro j hj
      exact contribBy_eq_of_lookup (hothers j (fun hji => hl (hji ▸ hj)))
    split
    next rep hrep =>
      obtain ⟨hrepmem, hrm, hry⟩ := findReport_mem hrep
      have hhomerep : home = rep :=
        key_inj hwf.keysNodup hhomemem hrepmem ⟨hhm.trans hrm.symm, hhy.trans hry.symm⟩
      have hirep : i ∈ rep.expenses := hhomerep ▸ hhid
      have hnotin_untouched : ∀ r ∈ s.reports,
          ¬(r.month = rep.month ∧ r.year = rep.year) → i ∉ r.expenses := by
        intro r hr hk
        refine not_ref_of_other_period hwf hr he ?_
        intro hkk
        exact hk ⟨hkk.1.trans hrm.symm, hkk.2.trans hry.symm⟩
      have hsum_rep : ∀ f : Expense → ℚ,
          sumBy f (removeExp s.expenses i) (rep.expenses.filter (fun j => j != i)) =
            sumBy f s.expenses rep.expenses - contribBy f s.expenses i :=
        fun f => sumBy_remove (hwf.refsNodup rep hrepmem) hirep
          (fun j _ hji => contribBy_eq_of_lookup (hothers j hji))
      split
      next hE =>
        rw [demote_expenses] at hE
        have hE2 : rep.expenses.filter (fun j => j != i) = [] := hE
        constructor
        · exact hidB
        · exact hidsnd
        · exact List.Nodup.sublist
            ((keys_removeReport_sublist s.reports _ _)) hwf.keysNodup
        · intro x hx
          exact hwf.refsNodup x (mem_removeReport_strong hx).1
        · intro x hx j hj
          obtain ⟨hxs, hxk⟩ := mem_removeReport_strong hx
          have hxk' : ¬(x.month = rep.month ∧ x.year = rep.year) := by
            intro hc
            exact hxk ⟨hc.1.trans hrm, hc.2.trans hry⟩
          have hnotin := hnotin_untouched x hxs hxk'
          rcases hwf.refsResolve x hxs j hj with ⟨ex, hex, hm1, hy1⟩
          refine ⟨ex, ?_, hm1, hy1⟩
          rw [hothers j (fun hji => hnotin (hji ▸ hj))]
          exact hex
        · intro x hx
          obtain ⟨hxs, hxid⟩ := mem_removeExp hx
          rcases hwf.covered x hxs with ⟨r0, hr0, k1, k2, k3⟩
          by_cases hk : r0.month = rep.month ∧ r0.year = rep.year
          · have hr0rep : r0 = rep := key_inj hwf.keysNodup hr0 hrepmem hk
            have : x.id ∈ rep.expenses.filter (fun j => j != i) :=
              mem_filter_ne.mpr ⟨hr0rep ▸ k3, hxid⟩
            rw [hE2] at this
            cases this
          · refine ⟨r0, mem_removeReport_of_mem hr0 ?_, k1, k2, k3⟩
            intro hc
            exact hk ⟨hc.1.trans hrm.symm, hc.2.trans hry.symm⟩
        · intro x hx
          exact hwf.userOk x (mem_removeReport_strong hx).1
        · exact hexpuser
        · intro x hx
          obtain ⟨hxs, hxk⟩ := mem_removeReport_strong hx
          have hxk' : ¬(x.month = rep.month ∧ x.year = rep.year) := by
            intro hc
            exact hxk ⟨hc.1.trans hrm, hc.2.trans hry⟩
          rw [hwf.distOk x hxs]
          exact (hsum_noni _ _ (hnotin_untouched x hxs hxk')).symm
        · intro x hx
          obtain ⟨hxs, hxk⟩ := mem_removeReport_strong hx
          have hxk' : ¬(x.month = rep.month ∧ x.year = rep.year) := by
            intro hc
            exact hxk ⟨hc.1.trans hrm, hc.2.trans hry⟩
          rw [hwf.costOk x hxs]
          exact (hsum_noni _ _ (hnotin_untouched x hxs hxk')).symm
      next hE =>
        have hmem' : demoteIfFinalized
            { rep with
              expenses := rep.expenses.filter (fun j => j != i)
              totalDistance := rep.totalDistance - e.distance
              totalExpenseAmount := rep.totalExpenseAmount - e.totalCost
              pendingAmount := rep.pendingAmount - e.totalCost }
            "Report reverted to draft due to expense deletion" ∈
            saveReport s.reports (demoteIfFinalized
              { rep with
                expenses := rep.expenses.filter (fun j => j != i)
                totalDistance := rep.totalDistance - e.distance
                totalExpenseAmount := rep.totalExpenseAmount - e.totalCost
                pendingAmount := rep.pendingAmount - e.totalCost }
              "Report reverted to draft due to expense deletion") :=
          (findReport_mem (findReport_saveReport_self hrep
            (by rw [demote_month]; exact hrm) (by rw [demote_year]; exact hry))).1
        constructor
        · exact hidB
        · exact hidsnd
        · rw [keys_saveReport]; exact hwf.keysNodup
        · intro x hx
          rcases mem_saveReport_strong hx with rfl | ⟨hxs, _⟩
          · rw [demote_expenses]
            exact (hwf.refsNodup rep hrepmem).filter _
          · exact hwf.refsNodup x hxs
        · intro x hx j hj
          rcases mem_saveReport_strong hx with rfl | ⟨hxs, hxk⟩
          · rw [demote_expenses] at hj
            rcases mem_filter_ne.mp hj with ⟨hjo, hji⟩
            rcases hwf.refsResolve rep hrepmem j hjo with ⟨ex, hex, hm1, hy1⟩
            refine ⟨ex, ?_, ?_, ?_⟩
            · rw [hothers j hji]; exact hex
            · rw [demote_month]; exact hm1
            · rw [demote_year]; exact hy1
          · have hxk' : ¬(x.month = rep.month ∧ x.year = rep.year) := by
              intro hc
              exact hxk (by rw [demote_month, demote_year]; exact hc)
            have hnotin := hnotin_untouched x hxs hxk'
            rcases hwf.refsResolve x hxs j hj with ⟨ex, hex, hm1, hy1⟩
            refine ⟨ex, ?_, hm1, hy1⟩
            rw [hothers j (fun hji => hnotin (hji ▸ hj))]
            exact hex
        · intro x hx
          obtain ⟨hxs, hxid⟩ := mem_removeExp hx
          rcases hwf.covered x hxs with ⟨r0, hr0, k1, k2, k3⟩
          by_cases hk : r0.month = rep.month ∧ r0.year = rep.year
          · have hr0rep : r0 = rep := key_inj hwf.keysNodup hr0 hrepmem hk
            refine ⟨_, hmem', ?_, ?_, ?_⟩
            · rw [demote_month, ← hr0rep]; exact k1
            · rw [demote_year, ← hr0rep]; exact k2
            · rw [demote_expenses]
              exact mem_filter_ne.mpr ⟨hr0rep ▸ k3, hxid⟩
          · refine ⟨r0, mem_saveReport_of_mem hr0 ?_, k1, k2, k3⟩
            intro hc
            rw [demote_month, demote_year] at hc
            exact hk hc
        · intro x hx
          rcases mem_saveReport_strong hx with rfl | ⟨hxs, _⟩
          · rw [demote_user]; exact hwf.userOk rep hrepmem
          · exact hwf.userOk x hxs
        · exact hexpuser
        · intro x hx
          rcases mem_saveReport_strong hx with rfl | ⟨hxs, hxk⟩
          · rw [demote_totalDistance, demote_expenses, hsum_rep Expense.distance,
              contribBy_some he, hwf.distOk rep hrepmem]
          · have hxk' : ¬(x.month = rep.month ∧ x.year = rep.year) := by
              intro hc
              exact hxk (by rw [demote_month, demote_year]; exact hc)
            rw [hwf.distOk x hxs]
            exact (hsum_noni _ _ (hnotin_untouched x hxs hxk')).symm
        · intro x hx
          rcases mem_saveReport_strong hx with rfl | ⟨hxs, hxk⟩
          · rw [demote_totalExpenseAmount, demote_expenses, hsum_rep Expense.totalCost,
              contribBy_some he, hwf.costOk rep hrepmem]
          · have hxk' : ¬(x.month = rep.month ∧ x.year = rep.year) := by
              intro hc
              exact hxk (by rw [demote_month, demote_year]; exact hc)
            rw [hwf.costOk x hxs]
            exact (hsum_noni _ _ (hnotin_untouched x hxs hxk')).symm
    next hrep =>
      exact absurd ⟨hhm, hhy⟩ (findReport_none_forall hrep home hhomemem)

/-- Status and reimbursement requests never change a report's key, owner,
reference list or expense totals. -/
theorem updateReportStatus_fields {u : Requester} {rep : Report}
    {body : StatusBody} {now : Int} {rep' : Report}
    (h : updateReportStatus u rep body now = .ok rep') :
    rep'.month = rep.month ∧ rep'.year = rep.year ∧ rep'.user = rep.user ∧
      rep'.expenses = rep.expenses ∧ rep'.totalDistance = rep.totalDistance ∧
      rep'.totalExpenseAmount = rep.totalExpenseAmount := by
  unfold updateReportStatus at h
  split at h
  · split at h
    · cases h
    · split at h
      · cases h
      · cases h; exact ⟨rfl, rfl, rfl, rfl, rfl, rfl⟩
  · split at h
    · split at h
      · cases h
      · split at h
        · cases h
        · split at h
          · split at h
            · split at h
              · cases h
              · cases h; exact ⟨rfl, rfl, rfl, rfl, rfl, rfl⟩
            · cases h; exact ⟨rfl, rfl, rfl, rfl, rfl, rfl⟩
          · split at h
            · cases h
            · cases h; exact ⟨rfl, rfl, rfl, rfl, rfl, rfl⟩
    · cases h; exact ⟨rfl, rfl, rfl, rfl, rfl, rfl⟩

theorem updateReportReimbursement_fields {u : Requester} {rep : Report}
    {amount : Option ℚ} {comments : Option String} {rep' : Report}
    (h : updateReportReimbursement u rep amount comments = .ok rep') :
    rep'.month = rep.month ∧ rep'.year = rep.year ∧ rep'.user = rep.user ∧
      rep'.expenses = rep.expenses ∧ rep'.totalDistance = rep.totalDistance ∧
      rep'.totalExpenseAmount = rep.totalExpenseAmount := by
  unfold updateReportReimbursement at h
  split at h
  · cases h
  · split at h
    · cases h
    · split at h
      · cases h
      · split at h
        · cases h
        · split at h
          · cases h
          · cases h; exact ⟨rfl, rfl, rfl, rfl, rfl, rfl⟩

/-- Writing back a report whose key, owner, references and totals are
unchanged preserves the invariant. -/
theorem wf_report_touch {s : St} (hwf : Wf s) {rep rep' : Report} {m : Nat}
    {y : Int} (hrep : findReport s.reports m y = some rep)
    (hm' : rep'.month = rep.month) (hy' : rep'.year = rep.year)
    (hu' : rep'.user = rep.user) (hx' : rep'.expenses = rep.expenses)
    (hd' : rep'.totalDistance = rep.totalDistance)
    (hc' : rep'.totalExpenseAmount = rep.totalExpenseAmount) :
    Wf { s with reports := saveReport s.reports rep' } := by
  obtain ⟨hrepmem, hrm, hry⟩ := findReport_mem hrep
  have hmem' : rep' ∈ saveReport s.reports rep' :=
    (findReport_mem (findReport_saveReport_self hrep (hm'.trans hrm) (hy'.trans hry))).1
  constructor
  · exact hwf.idBound
  · exact hwf.idsNodup
  · rw [keys_saveReport]; exact hwf.keysNodup
  · intro x hx
    rcases mem_saveReport_strong hx with rfl | ⟨hxs, _⟩
    · rw [hx']; exact hwf.refsNodup rep hrepmem
    · exact hwf.refsNodup x hxs
  · intro x hx j hj
    rcases mem_saveReport_strong hx with rfl | ⟨hxs, _⟩
    · rw [hx'] at hj
      rcases hwf.refsResolve rep hrepmem j hj with ⟨ex, hex, hm1, hy1⟩
      exact ⟨ex, hex, by rw [hm']; exact hm1, by rw [hy']; exact hy1⟩
    · exact hwf.refsResolve x hxs j hj
  · intro x hx
    rcases hwf.covered x hx with ⟨r0, hr0, k1, k2, k3⟩
    by_cases hk : r0.month = rep'.month ∧ r0.year = rep'.year
    · have hr0rep : r0 = rep :=
        key_inj hwf.keysNodup hr0 hrepmem ⟨hk.1.trans hm', hk.2.trans hy'⟩
      refine ⟨rep', hmem', ?_, ?_, ?_⟩
      · rw [hm', ← hr0rep]; exact k1
      · rw [hy', ← hr0rep]; exact k2
      · rw [hx', ← hr0rep]; exact k3
    · exact ⟨r0, mem_saveReport_of_mem hr0 hk, k1, k2, k3⟩
  · intro x hx
    rcases mem_saveReport_strong hx with rfl | ⟨hxs, _⟩
    · exact hu'.trans (hwf.userOk rep hrepmem)
    · exact hwf.userOk x hxs
  · exact hwf.expUserOk
  · intro x hx
    rcases mem_saveReport_strong hx with rfl | ⟨hxs, _⟩
    · rw [hd', hx']; exact hwf.distOk rep hrepmem
    · exact hwf.distOk x hxs
  · intro x hx
    rcases mem_saveReport_strong hx with rfl | ⟨hxs, _⟩
    · rw [hc', hx']; exact hwf.costOk rep hrepmem
    · exact hwf.costOk x hxs

theorem wf_statusStep {s : St} (hwf : Wf s) (m : Nat) (y : Int) (u : Requester)
    (body : StatusBody) (now : Int) : Wf (statusStep s m y u body now) := by
  unfold statusStep
  split
  next => exact hwf
  next rep hrep =>
    split
    next => exact hwf
    next rep' hok =>
      obtain ⟨h1, h2, h3, h4, h5, h6⟩ := updateReportStatus_fields hok
      exact wf_report_touch hwf hrep h1 h2 h3 h4 h5 h6

theorem wf_reimburseStep {s : St} (hwf : Wf s) (m : Nat) (y : Int)
    (u : Requester) (amount : Option ℚ) (comments : Option String) :
    Wf (reimburseStep s m y u amount comments) := by
  unfold reimburseStep
  split
  next => exact hwf
  next rep hrep =>
    split
    next => exact hwf
    next rep' hok =>
      obtain ⟨h1, h2, h3, h4, h5, h6⟩ := updateReportReimbursement_fields hok
      exact wf_report_touch hwf hrep h1 h2 h3 h4 h5 h6

theorem wf_step {s : St} (hwf : Wf s) (op : Op) : Wf (step s op) := by
  cases op with
  | createExp cat d c jd now => exact wf_createExpenseStep hwf cat d c jd now
  | updateExp i b => exact wf_updateExpenseStep hwf i b
  | deleteExp i => exact wf_deleteExpenseStep hwf i
  | submitReport m y now => exact wf_statusStep hwf m y _ _ now
  | approveReport m y a amt now => exact wf_statusStep hwf m y _ _ now
  | rejectReport m y a c now => exact wf_statusStep hwf m y _ _ now
  | reimburse m y a amt => exact wf_reimburseStep hwf m y _ _ _

/-- Every state reachable by a finite request sequence is well formed. -/
theorem wf_runOps (owner : Nat) (ops : List Op) : Wf (runOps owner ops) := by
  unfold runOps
  suffices h : ∀ s : St, Wf s → Wf (ops.foldl step s) from h _ (wf_initSt owner)
  induction ops with
  | nil => intro s hs; exact hs
  | cons o t ih =>
      intro s hs
      exact ih _ (wf_step hs o)

/-! ## The pending-amount invariant -/

/-- `pendingAmount = totalExpenseAmount - reimbursedAmount` on every report. -/
def pendInv (s : St) : Prop :=
  ∀ r ∈ s.reports, r.pendingAmount = r.totalExpenseAmount - r.reimbursedAmount

/-- A status request whose body carries no stray reimbursedAmount (or is an
approval, which recomputes both amounts) preserves the pending-amount
relation of the report it touches. -/
theorem updateReportStatus_pending {u : Requester} {rep : Report}
    {body : StatusBody} {now : Int} {rep' : Report}
    (hcanon : body.reimbursedAmount = none ∨ body.status = .approved)
    (hinv : rep.pendingAmount = rep.totalExpenseAmount - rep.reimbursedAmount)
    (h : updateReportStatus u rep body now = .ok rep') :
    rep'.pendingAmount = rep'.totalExpenseAmount - rep'.reimbursedAmount := by
  unfold updateReportStatus at h
  split at h
  next hsub =>
    split at h
    · cases h
    · split at h
      · cases h
      · cases h
        rcases hcanon with hc | hc
        · show rep.pendingAmount = rep.totalExpenseAmount -
            (body.reimbursedAmount.getD rep.reimbursedAmount)
          rw [hc]
          exact hinv
        · rw [hsub] at hc; cases hc
  next hsub =>
    split at h
    next happ =>
      split at h
      · cases h
      · split at h
        · cases h
        · split at h
          next hap2 =>
            split at h
            next a ha =>
              split at h
              · cases h
              · cases h
                show rep.totalExpenseAmount - a = rep.totalExpenseAmount - a
                rfl
            next ha =>
              cases h
              show (0 : ℚ) = rep.totalExpenseAmount - rep.totalExpenseAmount
              rw [sub_self]
          next hap2 =>
            split at h
            · cases h
            · cases h
              rcases hcanon with hc | hc
              · show rep.pendingAmount = rep.totalExpenseAmount -
                  (body.reimbursedAmount.getD rep.reimbursedAmount)
                rw [hc]
                exact hinv
              · exact absurd hc hap2
    next happ =>
      cases h
      rcases hcanon with hc | hc
      · show rep.pendingAmount = rep.totalExpenseAmount -
          (body.reimbursedAmount.getD rep.reimbursedAmount)
        rw [hc]
        exact hinv
      · exact absurd (Or.inl hc) happ

theorem updateReportReimbursement_pending {u : Requester} {rep : Report}
    {amount : Option ℚ} {comments : Option String} {rep' : Report}
    (h : updateReportReimbursement u rep amount comments = .ok rep') :
    rep'.pendingAmount = rep'.totalExpenseAmount - rep'.reimbursedAmount := by
  unfold updateReportReimbursement at h
  split at h
  · cases h
  · split at h
    · cases h
    · split at h
      · cases h
      · split at h
        · cases h
        · split at h
          · cases h
          · cases h
            rfl

theorem pendInv_step {s : St} (hp : pendInv s) (op : Op) : pendInv (step s op) := by
  cases op with
  | createExp cat d c jd now =>
      show pendInv (createExpenseStep s cat d c jd now)
      unfold createExpenseStep
      by_cases hfut : dateLt now jd = true
      · rw [if_pos hfut]; exact hp
      · rw [if_neg hfut]
        dsimp only
        split
        next rep hrep =>
          intro x hx
          rcases mem_saveReport_strong hx with rfl | ⟨hxs, _⟩
          · rw [demote_pendingAmount, demote_totalExpenseAmount, demote_reimbursedAmount]
            dsimp only
            rw [hp rep (findReport_mem hrep).1]
            ring
          · exact hp x hxs
        next hrep =>
          intro x hx
          rcases List.mem_append.mp hx with h | h
          · exact hp x h
          · rw [List.mem_singleton] at h
            subst h
            exact (sub_zero _).symm
  | updateExp i b =>
      show pendInv (updateExpenseStep s i b)
      unfold updateExpenseStep
      split
      next => exact hp
      next e he =>
        dsimp only
        split
        next hper =>
          split
          next rep hrep =>
            intro x hx
            rcases mem_saveReport_strong hx with rfl | ⟨hxs, _⟩
            · rw [demote_pendingAmount, demote_totalExpenseAmount, demote_reimbursedAmount]
              dsimp only
              rw [hp rep (findReport_mem hrep).1]
              ring
            · exact hp x hxs
          next => exact hp
        next hper =>
          have hp1 : pendInv { s with
              expenses := saveExp s.expenses (applyUpdateBody e (recomputeCost e b)),
              reports :=
                match findReport s.reports (monthOf e.journeyDate) (yearOf e.journeyDate) with
                | some oldRep =>
                    saveReport s.reports (demoteIfFinalized
                      { oldRep with
                        expenses := oldRep.expenses.filter (fun j => j != i)
                        totalDistance := oldRep.totalDistance - e.distance
                        totalExpenseAmount := oldRep.totalExpenseAmount - e.totalCost
                        pendingAmount := oldRep.pendingAmount - e.totalCost }
                      "Report reverted to draft due to expense moved to different month")
                | none => s.reports } := by
            split
            next oldRep hold =>
              intro x hx
              rcases mem_saveReport_strong hx with rfl | ⟨hxs, _⟩
              · rw [demote_pendingAmount, demote_totalExpenseAmount, demote_reimbursedAmount]
                dsimp only
                rw [hp oldRep (findReport_mem hold).1]
                ring
              · exact hp x hxs
            next => exact hp
          generalize hrs1 :
            (match findReport s.reports (monthOf e.journeyDate) (yearOf e.journeyDate) with
              | some oldRep =>
                  saveReport s.reports (demoteIfFinalized
                    { oldRep with
                      expenses := oldRep.expenses.filter (fun j => j != i)
                      totalDistance := oldRep.totalDistance - e.distance
                      totalExpenseAmount := oldRep.totalExpenseAmount - e.totalCost
                      pendingAmount := oldRep.pendingAmount - e.totalCost }
                    "Report reverted to draft due to expense moved to different month")
              | none => s.reports) = rs1 at hp1 ⊢
          have hp1' : ∀ r ∈ rs1, r.pendingAmount = r.totalExpenseAmount - r.reimbursedAmount :=
            fun r hr => hp1 r hr
          split
          next newRep hnew =>
            intro x hx
            rcases mem_saveReport_strong hx with rfl | ⟨hxs, _⟩
            · rw [demote_pendingAmount, demote_totalExpenseAmount, demote_reimbursedAmount]
              dsimp only
              rw [hp1' newRep (findReport_mem hnew).1]
              ring
            · exact hp1' x hxs
          next hnew =>
            intro x hx
            rcases List.mem_append.mp hx with h | h
            · exact hp1' x h
            · rw [List.mem_singleton] at h
              subst h
              exact (sub_zero _).symm
  | deleteExp i =>
      show pendInv (deleteExpenseStep s i)
      unfold deleteExpenseStep
      split
      next => exact hp
      next e he =>
        dsimp only
        split
        next rep hrep =>
          split
          next =>
            intro x hx
            exact hp x (mem_removeReport_strong hx).1
          next =>
            intro x hx
            rcases mem_saveReport_strong hx with rfl | ⟨hxs, _⟩
            · rw [demote_pendingAmount, demote_totalExpenseAmount, demote_reimbursedAmount]
              dsimp only
              rw [hp rep (findReport_mem hrep).1]
              ring
            · exact hp x hxs
        next => exact hp
  | submitReport m y now =>
      show pendInv (statusStep s m y ⟨s.owner, .user⟩ ⟨.submitted, none, none⟩ now)
      unfold statusStep
      split
      next => exact hp
      next rep hrep =>
        split
        next => exact hp
        next rep' hok =>
          intro x hx
          rcases mem_saveReport_strong hx with rfl | ⟨hxs, _⟩
          · exact updateReportStatus_pending (Or.inl rfl)
              (hp rep (findReport_mem hrep).1) hok
          · exact hp x hxs
  | approveReport m y a amt now =>
      show pendInv (statusStep s m y ⟨a, .admin⟩ ⟨.approved, amt, none⟩ now)
      unfold statusStep
      split
      next => exact hp
      next rep hrep =>
        split
        next => exact hp
        next rep' hok =>
          intro x hx
          rcases mem_saveReport_strong hx with rfl | ⟨hxs, _⟩
          · exact updateReportStatus_pending (Or.inr rfl)
              (hp rep (findReport_mem hrep).1) hok
          · exact hp x hxs
  | rejectReport m y a c now =>
      show pendInv (statusStep s m y ⟨a, .admin⟩ ⟨.rejected, none, some c⟩ now)
      unfold statusStep
      split
      next => exact hp
      next rep hrep =>
        split
        next => exact hp
        next rep' hok =>
          intro x hx
          rcases mem_saveReport_strong hx with rfl | ⟨hxs, _⟩
          · exact updateReportStatus_pending (Or.inl rfl)
              (hp rep (findReport_mem hrep).1) hok
          · exact hp x hxs
  | reimburse m y a amt =>
      show pendInv (reimburseStep s m y ⟨a, .admin⟩ (some amt) none)
      unfold reimburseStep
      split
      next => exact hp
      next rep hrep =>
        split
        next => exact hp
        next rep' hok =>
          intro x hx
          rcases mem_saveReport_strong hx with rfl | ⟨hxs, _⟩
          · exact updateReportReimbursement_pending hok
          · exact hp x hxs

theorem pendInv_runOps (owner : Nat) (ops : List Op) : pendInv (runOps owner ops) := by
  unfold runOps
  suffices h : ∀ s : St, pendInv s → pendInv (ops.foldl step s) by
    refine h _ ?_
    intro r hr
    cases hr
  induction ops with
  | nil => intro s hs; exact hs
  | cons o t ih =>
      intro s hs
      exact ih _ (pendInv_step hs o)

/-! ## Tracking reports across one request -/

theorem demote_status_of_finalized {r : Report}
    (h : r.status = .submitted ∨ r.status = .approved) (msg : String) :
    (demoteIfFinalized r msg).status = .draft := by
  unfold demoteIfFinalized
  rw [if_pos h]

/-- After one request, every report either is in draft status, or descends
from the report of the same period in the previous state: unchanged, changed
only outside (expenses, totalDistance, totalExpenseAmount), or descended
from a report that was in neither submitted nor approved status. -/
theorem step_reports_track (s : St) (op : Op) :
    ∀ r' ∈ (step s op).reports,
      r'.status = .draft ∨
      ∃ r0 ∈ s.reports, r0.month = r'.month ∧ r0.year = r'.year ∧
        (r' = r0 ∨
         (r'.expenses = r0.expenses ∧ r'.totalDistance = r0.totalDistance ∧
          r'.totalExpenseAmount = r0.totalExpenseAmount) ∨
         (r0.status ≠ .submitted ∧ r0.status ≠ .approved)) := by
  have hdem : ∀ (rep : Report) (R : Report) (msg : String), rep ∈ s.reports →
      R.month = rep.month → R.year = rep.year → R.status = rep.status →
      (demoteIfFinalized R msg).status = .draft ∨
      ∃ r0 ∈ s.reports, r0.month = (demoteIfFinalized R msg).month ∧
        r0.year = (demoteIfFinalized R msg).year ∧
        ((demoteIfFinalized R msg) = r0 ∨
         ((demoteIfFinalized R msg).expenses = r0.expenses ∧
          (demoteIfFinalized R msg).totalDistance = r0.totalDistance ∧
          (demoteIfFinalized R msg).totalExpenseAmount = r0.totalExpenseAmount) ∨
         (r0.status ≠ .submitted ∧ r0.status ≠ .approved)) := by
    intro rep R msg hrepmem hRm hRy hRs
    by_cases hst : R.status = .submitted ∨ R.status = .approved
    · exact Or.inl (demote_status_of_finalized hst msg)
    · refine Or.inr ⟨rep, hrepmem, ?_, ?_, Or.inr (Or.inr ⟨?_, ?_⟩)⟩
      · rw [demote_month, hRm]
      · rw [demote_year, hRy]
      · intro hc; exact hst (Or.inl (hRs.trans hc))
      · intro hc; exact hst (Or.inr (hRs.trans hc))
  have hkeep : ∀ r' ∈ s.reports,
      r'.status = .draft ∨
      ∃ r0 ∈ s.reports, r0.month = r'.month ∧ r0.year = r'.year ∧
        (r' = r0 ∨
         (r'.expenses = r0.expenses ∧ r'.totalDistance = r0.totalDistance ∧
          r'.totalExpenseAmount = r0.totalExpenseAmount) ∨
         (r0.status ≠ .submitted ∧ r0.status ≠ .approved)) :=
    fun r' hr' => Or.inr ⟨r', hr', rfl, rfl, Or.inl rfl⟩
  cases op with
  | createExp cat d c jd now =>
      show ∀ r' ∈ (createExpenseStep s cat d c jd now).reports, _
      unfold createExpenseStep
      by_cases hfut : dateLt now jd = true
      · rw [if_pos hfut]; exact hkeep
      · rw [if_neg hfut]
        dsimp only
        split
        next rep hrep =>
          intro r' hr'
          rcases mem_saveReport_strong hr' with rfl | ⟨hxs, _⟩
          · exact hdem rep _ _ (findReport_mem hrep).1 rfl rfl rfl
          · exact hkeep r' hxs
        next hrep =>
          intro r' hr'
          rcases List.mem_append.mp hr' with h | h
          · exact hkeep r' h
          · rw [List.mem_singleton] at h
            subst h
            exact Or.inl rfl
  | updateExp i b =>
      show ∀ r' ∈ (updateExpenseStep s i b).reports, _
      unfold updateExpenseStep
      split
      next => exact hkeep
      next e he =>
        dsimp only
        split
        next hper =>
          split
          next rep hrep =>
            intro r' hr'
            rcases mem_saveReport_strong hr' with rfl | ⟨hxs, _⟩
            · exact hdem rep _ _ (findReport_mem hrep).1 rfl rfl rfl
            · exact hkeep r' hxs
          next => exact hkeep
        next hper =>
          have h1 : ∀ r' ∈
              (match findReport s.reports (monthOf e.journeyDate) (yearOf e.journeyDate) with
                | some oldRep =>
                    saveReport s.reports (demoteIfFinalized
                      { oldRep with
                        expenses := oldRep.expenses.filter (fun j => j != i)
                        totalDistance := oldRep.totalDistance - e.distance
                        totalExpenseAmount := oldRep.totalExpenseAmount - e.totalCost
                        pendingAmount := oldRep.pendingAmount - e.totalCost }
                      "Report reverted to draft due to expense moved to different month")
                | none => s.reports),
              r'.status = .draft ∨
              ∃ r0 ∈ s.reports, r0.month = r'.month ∧ r0.year = r'.year ∧
                (r' = r0 ∨
                 (r0.status ≠ .submitted ∧ r0.status ≠ .approved ∧ r'.status = r0.status)) := by
            split
            next oldRep hold =>
              intro r' hr'
              rcases mem_saveReport_strong hr' with rfl | ⟨hxs, _⟩
              · by_cases hfin :
                    ({ oldRep with
                        expenses := oldRep.expenses.filter (fun j => j != i)
                        totalDistance := oldRep.totalDistance - e.distance
                        totalExpenseAmount := oldRep.totalExpenseAmount - e.totalCost
                        pendingAmount := oldRep.pendingAmount - e.totalCost } : Report).status =
                      .submitted ∨
                    ({ oldRep with
                        expenses := oldRep.expenses.filter (fun j => j != i)
                        totalDistance := oldRep.totalDistance - e.distance
                        totalExpenseAmount := oldRep.totalExpenseAmount - e.totalCost
                        pendingAmount := oldRep.pendingAmount - e.totalCost } : Report).status =
                      .approved
                · exact Or.inl (demote_status_of_finalized hfin _)
                · refine Or.inr ⟨oldRep, (findReport_mem hold).1, ?_, ?_,
                    Or.inr ⟨?_, ?_, ?_⟩⟩
                  · rw [demote_month]
                  · rw [demote_year]
                  · intro hc; exact hfin (Or.inl hc)
                  · intro hc; exact hfin (Or.inr hc)
                  · unfold demoteIfFinalized
                    rw [if_neg hfin]
              · exact Or.inr ⟨r', hxs, rfl, rfl, Or.inl rfl⟩
            next => exact fun r' hr' => Or.inr ⟨r', hr', rfl, rfl, Or.inl rfl⟩
          generalize hrs1 :
            (match findReport s.reports (monthOf e.journeyDate) (yearOf e.journeyDate) with
              | some oldRep =>
                  saveReport s.reports (demoteIfFinalized
                    { oldRep with
                      expenses := oldRep.expenses.filter (fun j => j != i)
                      totalDistance := oldRep.totalDistance - e.distance
                      totalExpenseAmount := oldRep.totalExpenseAmount - e.totalCost
                      pendingAmount := oldRep.pendingAmount - e.totalCost }
                    "Report reverted to draft due to expense moved to different month")
              | none => s.reports) = rs1 at h1 ⊢
          split
          next newRep hnew =>
            intro r' hr'
            rcases mem_saveReport_strong hr' with rfl | ⟨hxs, _⟩
            · by_cases hfin :
                  ({ newRep with
                      expenses := newRep.expenses ++ [i]
                      totalDistance := newRep.totalDistance +
                        (applyUpdateBody e (recomputeCost e b)).distance
                      totalExpenseAmount := newRep.totalExpenseAmount +
                        (applyUpdateBody e (recomputeCost e b)).totalCost
                      pendingAmount := newRep.pendingAmount +
                        (applyUpdateBody e (recomputeCost e b)).totalCost } : Report).status =
                    .submitted ∨
                  ({ newRep with
                      expenses := newRep.expenses ++ [i]
                      totalDistance := newRep.totalDistance +
                        (applyUpdateBody e (recomputeCost e b)).distance
                      totalExpenseAmount := newRep.totalExpenseAmount +
                        (applyUpdateBody e (recomputeCost e b)).totalCost
                      pendingAmount := newRep.pendingAmount +
                        (applyUpdateBody e (recomputeCost e b)).totalCost } : Report).status =
                    .approved
              · exact Or.inl (demote_status_of_finalized hfin _)
              · rcases h1 newRep (findReport_mem hnew).1 with hdft | ⟨r0, hr0, k1, k2, hc⟩
                · left
                  unfold demoteIfFinalized
                  rw [if_neg hfin]
                  exact hdft
                · rcases hc with rfl | ⟨hns, hna, hss⟩
                  · refine Or.inr ⟨newRep, hr0, ?_, ?_, Or.inr (Or.inr ⟨?_, ?_⟩)⟩
                    · rw [demote_month]
                    · rw [demote_year]
                    · intro hcc; exact hfin (Or.inl hcc)
                    · intro hcc; exact hfin (Or.inr hcc)
                  · refine Or.inr ⟨r0, hr0, ?_, ?_, Or.inr (Or.inr ⟨hns, hna⟩)⟩
                    · rw [demote_month]; exact k1
                    · rw [demote_year]; exact k2
            · rcases h1 r' hxs with hdft | ⟨r0, hr0, k1, k2, hc⟩
              · exact Or.inl hdft
              · rcases hc with rfl | ⟨hns, hna, hss⟩
                · exact Or.inr ⟨r', hr0, rfl, rfl, Or.inl rfl⟩
                · exact Or.inr ⟨r0, hr0, k1, k2, Or.inr (Or.inr ⟨hns, hna⟩)⟩
          next hnew =>
            intro r' hr'
            rcases List.mem_append.mp hr' with h | h
            · rcases h1 r' h with hdft | ⟨r0, hr0, k1, k2, hc⟩
              · exact Or.inl hdft
              · rcases hc with rfl | ⟨hns, hna, hss⟩
                · exact Or.inr ⟨r', hr0, rfl, rfl, Or.inl rfl⟩
                · exact Or.inr ⟨r0, hr0, k1, k2, Or.inr (Or.inr ⟨hns, hna⟩)⟩
            · rw [List.mem_singleton] at h
              subst h
              exact Or.inl rfl
  | deleteExp i =>
      show ∀ r' ∈ (deleteExpenseStep s i).reports, _
      unfold deleteExpenseStep
      split
      next => exact hkeep
      next e he =>
        dsimp only
        split
        next rep hrep =>
          split
          next =>
            intro r' hr'
            exact hkeep r' (mem_removeReport_strong hr').1
          next =>
            intro r' hr'
            rcases mem_saveReport_strong hr' with rfl | ⟨hxs, _⟩
            · exact hdem rep _ _ (findReport_mem hrep).1 rfl rfl rfl
            · exact hkeep r' hxs
        next => exact hkeep
  | submitReport m y now =>
      show ∀ r' ∈ (statusStep s m y ⟨s.owner, .user⟩ ⟨.submitted, none, none⟩ now).reports, _
      unfold statusStep
      split
      next => exact hkeep
      next rep hrep =>
        split
        next => exact hkeep
        next rep' hok =>
          intro r' hr'
          rcases mem_saveReport_strong hr' with rfl | ⟨hxs, _⟩
          · obtain ⟨h1, h2, _, h4, h5, h6⟩ := updateReportStatus_fields hok
            exact Or.inr ⟨rep, (findReport_mem hrep).1, h1.symm, h2.symm,
              Or.inr (Or.inl ⟨h4, h5, h6⟩)⟩
          · exact hkeep r' hxs
  | approveReport m y a amt now =>
      show ∀ r' ∈ (statusStep s m y ⟨a, .admin⟩ ⟨.approved, amt, none⟩ now).reports, _
      unfold statusStep
      split
      next => exact hkeep
      next rep hrep =>
        split
        next => exact hkeep
        next rep' hok =>
          intro r' hr'
          rcases mem_saveReport_strong hr' with rfl | ⟨hxs, _⟩
          · obtain ⟨h1, h2, _, h4, h5, h6⟩ := updateReportStatus_fields hok
            exact Or.inr ⟨rep, (findReport_mem hrep).1, h1.symm, h2.symm,
              Or.inr (Or.inl ⟨h4, h5, h6⟩)⟩
          · exact hkeep r' hxs
  | rejectReport m y a c now =>
      show ∀ r' ∈ (statusStep s m y ⟨a, .admin⟩ ⟨.rejected, none, some c⟩ now).reports, _
      unfold statusStep
      split
      next => exact hkeep
      next rep hrep =>
        split
        next => exact hkeep
        next rep' hok =>
          intro r' hr'
          rcases mem_saveReport_strong hr' with rfl | ⟨hxs, _⟩
          · obtain ⟨h1, h2, _, h4, h5, h6⟩ := updateReportStatus_fields hok
            exact Or.inr ⟨rep, (findReport_mem hrep).1, h1.symm, h2.symm,
              Or.inr (Or.inl ⟨h4, h5, h6⟩)⟩
          · exact hkeep r' hxs
  | reimburse m y a amt =>
      show ∀ r' ∈ (reimburseStep s m y ⟨a, .admin⟩ (some amt) none).reports, _
      unfold reimburseStep
      split
      next => exact hkeep
      next rep hrep =>
        split
        next => exact hkeep
        next rep' hok =>
          intro r' hr'
          rcases mem_saveReport_strong hr' with rfl | ⟨hxs, _⟩
          · obtain ⟨h1, h2, _, h4, h5, h6⟩ := updateReportReimbursement_fields hok
            exact Or.inr ⟨rep, (findReport_mem hrep).1, h1.symm, h2.symm,
              Or.inr (Or.inl ⟨h4, h5, h6⟩)⟩
          · exact hkeep r' hxs

/-! ## Claims -/

/-- C1: For any finite sequence of expense create, update, and delete
operations of one owner (here together with the report-workflow operations,
which only strengthens the statement), every monthly report that still
exists afterwards has totalDistance equal to the sum of the distance fields,
and totalExpenseAmount equal to the sum of the totalCost fields, of exactly
the expenses it currently references (every reference resolving to a stored
expense). -/
theorem c1_totals_equal_sums (owner : Nat) (ops : List Op) :
    ∀ r ∈ (runOps owner ops).reports,
      (∀ i ∈ r.expenses, ∃ e, lookupExp (runOps owner ops).expenses i = some e) ∧
      r.totalDistance = sumBy Expense.distance (runOps owner ops).expenses r.expenses ∧
      r.totalExpenseAmount =
        sumBy Expense.totalCost (runOps owner ops).expenses r.expenses := by
  intro r hr
  have hwf := wf_runOps owner ops
  refine ⟨?_, hwf.distOk r hr, hwf.costOk r hr⟩
  intro i hi
  rcases hwf.refsResolve r hr i hi with ⟨e, he, _, _⟩
  exact ⟨e, he⟩

def c1ops : List Op := [.createExp 5 100 1 ⟨2025, 0, 10⟩ ⟨2025, 5, 1⟩]

def c1rep : Report :=
  { user := 0, month := 1, year := 2025, totalDistance := 100,
    totalExpenseAmount := 100 * 1, reimbursedAmount := 0,
    pendingAmount := 100 * 1, status := .draft, submittedAt := none,
    approvedAt := none, rejectedAt := none, comments := none, expenses := [0] }

theorem c1_totals_equal_sums_witness :
    c1rep ∈ (runOps 0 c1ops).reports ∧
      ((∀ i ∈ c1rep.expenses, ∃ e, lookupExp (runOps 0 c1ops).expenses i = some e) ∧
       c1rep.totalDistance = sumBy Expense.distance (runOps 0 c1ops).expenses c1rep.expenses ∧
       c1rep.totalExpenseAmount =
         sumBy Expense.totalCost (runOps 0 c1ops).expenses c1rep.expenses) := by
  have hmem : c1rep ∈ (runOps 0 c1ops).reports := List.mem_singleton_self _
  exact ⟨hmem, c1_totals_equal_sums 0 c1ops c1rep hmem⟩

/-- C10: Every operation of the core (expense create, update, delete; report
submit, approve, reject; reimbursement update) preserves
`pendingAmount = totalExpenseAmount - reimbursedAmount` on each monthly
report: the property holds in every reachable state. -/
theorem c10_pending_equation (owner : Nat) (ops : List Op) :
    ∀ r ∈ (runOps owner ops).reports,
      r.pendingAmount = r.totalExpenseAmount - r.reimbursedAmount :=
  fun r hr => pendInv_runOps owner ops r hr

def c10ops : List Op :=
  [.createExp 5 100 1 ⟨2025, 0, 10⟩ ⟨2025, 5, 1⟩,
   .submitReport 1 2025 50,
   .approveReport 1 2025 9 none 60]

def c10rep : Report :=
  { user := 0, month := 1, year := 2025, totalDistance := 100,
    totalExpenseAmount := 100 * 1, reimbursedAmount := 100 * 1,
    pendingAmount := 0, status := .approved, submittedAt := some 50,
    approvedAt := some 60, rejectedAt := none, comments := none, expenses := [0] }

theorem c10_pending_equation_witness :
    c10rep ∈ (runOps 0 c10ops).reports ∧
      c10rep.pendingAmount = c10rep.totalExpenseAmount - c10rep.reimbursedAmount := by
  have hmem : c10rep ∈ (runOps 0 c10ops).reports := List.mem_singleton_self _
  exact ⟨hmem, c10_pending_equation 0 c10ops c10rep hmem⟩

/-- C4: Whenever an expense mutation (or indeed any single request) changes
the membership (expense references) or totals of a report whose current
status is submitted or approved, the report of that period after the
operation is in draft status. -/
theorem c4_demote_on_change (owner : Nat) (ops : List Op) (op : Op)
    (r r' : Report)
    (hr : r ∈ (runOps owner ops).reports)
    (hr' : r' ∈ (step (runOps owner ops) op).reports)
    (hm : r'.month = r.month) (hy : r'.year = r.year)
    (hfin : r.status = .submitted ∨ r.status = .approved)
    (hch : r'.expenses ≠ r.expenses ∨ r'.totalDistance ≠ r.totalDistance ∨
           r'.totalExpenseAmount ≠ r.totalExpenseAmount) :
    r'.status = .draft := by
  rcases step_reports_track (runOps owner ops) op r' hr' with hdr | ⟨r0, hr0, hkm, hky, hc⟩
  · exact hdr
  have hr0r : r0 = r :=
    key_inj (wf_runOps owner ops).keysNodup hr0 hr ⟨hkm.trans hm, hky.trans hy⟩
  subst hr0r
  rcases hc with rfl | ⟨h1, h2, h3⟩ | ⟨hns, hna⟩
  · rcases hch with hne | hne | hne <;> exact absurd rfl hne
  · rcases hch with hne | hne | hne
    · exact absurd h1 hne
    · exact absurd h2 hne
    · exact absurd h3 hne
  · rcases hfin with hs | hs
    · exact absurd hs hns
    · exact absurd hs hna

def c4ops : List Op :=
  [.createExp 5 100 1 ⟨2025, 0, 10⟩ ⟨2025, 5, 1⟩, .submitReport 1 2025 50]

def c4op : Op := .createExp 6 50 1 ⟨2025, 0, 20⟩ ⟨2025, 5, 1⟩

def c4r : Report :=
  { user := 0, month := 1, year := 2025, totalDistance := 100,
    totalExpenseAmount := 100 * 1, reimbursedAmount := 0,
    pendingAmount := 100 * 1, status := .submitted, submittedAt := some 50,
    approvedAt := none, rejectedAt := none, comments := none, expenses := [0] }

def c4r' : Report :=
  { user := 0, month := 1, year := 2025, totalDistance := 100 + 50,
    totalExpenseAmount := 100 * 1 + 50 * 1, reimbursedAmount := 0,
    pendingAmount := 100 * 1 + 50 * 1, status := .draft, submittedAt := some 50,
    approvedAt := none, rejectedAt := none,
    comments := some "Report reverted to draft due to new expense added",
    expenses := [0, 1] }

theorem c4_demote_on_change_witness :
    c4r ∈ (runOps 0 c4ops).reports ∧
      c4r' ∈ (step (runOps 0 c4ops) c4op).reports ∧
      (c4r.status = .submitted ∨ c4r.status = .approved) ∧
      c4r'.expenses ≠ c4r.expenses ∧
      c4r'.status = .draft := by
  have h1 : c4r ∈ (runOps 0 c4ops).reports := List.mem_singleton_self _
  have h2 : c4r' ∈ (step (runOps 0 c4ops) c4op).reports := List.mem_singleton_self _
  refine ⟨h1, h2, Or.inl rfl, by decide, ?_⟩
  exact c4_demote_on_change 0 c4ops c4op c4r c4r' h1 h2 rfl rfl (Or.inl rfl)
    (Or.inl (by decide))

def c5report : Report :=
  { user := 7, month := 3, year := 2025, totalDistance := 120,
    totalExpenseAmount := 120, reimbursedAmount := 120, pendingAmount := 0,
    status := .approved, submittedAt := some 1, approvedAt := some 2,
    rejectedAt := none, comments := none, expenses := [4] }

/-- C5 counterexample: a status request with `status = "draft"` falls through
every guard of `updateReportStatus` — here a requester who is neither the
owner (user 7) nor an admin moves an approved report directly back to draft,
contradicting the claim that no direct user-initiated request does so. -/
theorem c5_counterexample :
    updateReportStatus ⟨99, .user⟩ c5report ⟨.draft, none, none⟩ 5 =
      .ok { c5report with status := .draft } := by
  rfl

/-- C5 (corrected): the guards of `updateReportStatus` protect only the
submitted, approved and rejected transitions; a request whose body status is
`draft` always succeeds and puts the report in draft status, for any
requester, any current status, and any report ("Anyone can revert to
draft"). -/
theorem c5_draft_always_allowed (u : Requester) (rep : Report)
    (body : StatusBody) (now : Int) (h : body.status = .draft) :
    ∃ r', updateReportStatus u rep body now = .ok r' ∧ r'.status = .draft := by
  unfold updateReportStatus
  rw [if_neg (by rw [h]; intro hc; cases hc),
      if_neg (by rw [h]; rintro (hc | hc) <;> cases hc)]
  exact ⟨_, rfl, h⟩

theorem c5_draft_always_allowed_witness :
    (⟨.draft, none, none⟩ : StatusBody).status = .draft ∧
      ∃ r', updateReportStatus ⟨99, .user⟩ c5report ⟨.draft, none, none⟩ 5 = .ok r' ∧
        r'.status = .draft :=
  ⟨rfl, c5_draft_always_allowed ⟨99, .user⟩ c5report ⟨.draft, none, none⟩ 5 rfl⟩

/-- C6: approving a submitted report with a reimbursedAmount exceeding the
total is rejected with a validation error and the store is left unchanged; a
valid amount sets pendingAmount = totalExpenseAmount - reimbursedAmount; an
omitted amount defaults to full reimbursement with pendingAmount 0; and
approval/rejection require the admin role and a currently submitted
report. -/
theorem c6_approval_rules (u : Requester) (rep : Report) (a : ℚ)
    (c : Option String) (now : Int) :
    (u.role = .admin → rep.status = .submitted → rep.totalExpenseAmount < a →
      updateReportStatus u rep ⟨.approved, some a, c⟩ now =
        .error "Reimbursed amount cannot exceed total expense amount") ∧
    (∀ s m y, findReport s.reports m y = some rep → u.role = .admin →
      rep.status = .submitted → rep.totalExpenseAmount < a →
      statusStep s m y u ⟨.approved, some a, c⟩ now = s) ∧
    (u.role = .admin → rep.status = .submitted → ¬ rep.totalExpenseAmount < a →
      ∃ r', updateReportStatus u rep ⟨.approved, some a, c⟩ now = .ok r' ∧
        r'.status = .approved ∧ r'.reimbursedAmount = a ∧
        r'.pendingAmount = rep.totalExpenseAmount - a) ∧
    (u.role = .admin → rep.status = .submitted →
      ∃ r', updateReportStatus u rep ⟨.approved, none, c⟩ now = .ok r' ∧
        r'.status = .approved ∧ r'.reimbursedAmount = rep.totalExpenseAmount ∧
        r'.pendingAmount = 0) ∧
    (u.role ≠ .admin →
      updateReportStatus u rep ⟨.approved, some a, c⟩ now =
        .error "Only administrators can approve or reject reports" ∧
      updateReportStatus u rep ⟨.rejected, none, c⟩ now =
        .error "Only administrators can approve or reject reports") ∧
    (rep.status ≠ .submitted → u.role = .admin →
      updateReportStatus u rep ⟨.approved, some a, c⟩ now =
        .error "Can only approve or reject reports that are in submitted status" ∧
      updateReportStatus u rep ⟨.rejected, none, c⟩ now =
        .error "Can only approve or reject reports that are in submitted status") := by
  refine ⟨?_, ?_, ?_, ?_, ?_, ?_⟩
  · intro hrole hst hlt
    simp [updateReportStatus, hrole, hst, hlt]
  · intro s m y hfind hrole hst hlt
    have herr : updateReportStatus u rep ⟨.approved, some a, c⟩ now =
        .error "Reimbursed amount cannot exceed total expense amount" := by
      simp [updateReportStatus, hrole, hst, hlt]
    unfold statusStep
    rw [hfind]
    dsimp only
    rw [herr]
  · intro hrole hst hlt
    have heq : updateReportStatus u rep ⟨.approved, some a, c⟩ now =
        .ok (applyStatusUpdate rep
          { status := .approved, reimbursedAmount := some a,
            pendingAmount := some (rep.totalExpenseAmount - a), comments := c,
            submittedAt := none, approvedAt := some now, rejectedAt := none }) := by
      simp [updateReportStatus, hrole, hst, hlt]
    exact ⟨_, heq, rfl, rfl, rfl⟩
  · intro hrole hst
    have heq : updateReportStatus u rep ⟨.approved, none, c⟩ now =
        .ok (applyStatusUpdate rep
          { status := .approved, reimbursedAmount := some rep.totalExpenseAmount,
            pendingAmount := some 0, comments := c,
            submittedAt := none, approvedAt := some now, rejectedAt := none }) := by
      simp [updateReportStatus, hrole, hst]
    exact ⟨_, heq, rfl, rfl, rfl⟩
  · intro hrole
    constructor <;> simp [updateReportStatus, hrole]
  · intro hst hrole
    constructor <;> simp [updateReportStatus, hrole, hst]

def c6rep : Report :=
  { user := 1, month := 4, year := 2025, totalDistance := 10,
    totalExpenseAmount := 50, reimbursedAmount := 0, pendingAmount := 50,
    status := .submitted, submittedAt := some 1, approvedAt := none,
    rejectedAt := none, comments := none, expenses := [2] }

def c6drafted : Report :=
  { user := 1, month := 4, year := 2025, totalDistance := 10,
    totalExpenseAmount := 50, reimbursedAmount := 0, pendingAmount := 50,
    status := .draft, submittedAt := none, approvedAt := none,
    rejectedAt := none, comments := none, expenses := [2] }

def c6st : St := { owner := 1, nextId := 3, expenses := [], reports := [c6rep] }

theorem c6_approval_rules_witness :
    updateReportStatus ⟨9, .admin⟩ c6rep ⟨.approved, some 60, none⟩ 7 =
        .error "Reimbursed amount cannot exceed total expense amount" ∧
    statusStep c6st 4 2025 ⟨9, .admin⟩ ⟨.approved, some 60, none⟩ 7 = c6st ∧
    (∃ r', updateReportStatus ⟨9, .admin⟩ c6rep ⟨.approved, some 30, none⟩ 7 = .ok r' ∧
      r'.status = .approved ∧ r'.reimbursedAmount = 30 ∧
      r'.pendingAmount = c6rep.totalExpenseAmount - 30) ∧
    (∃ r', updateReportStatus ⟨9, .admin⟩ c6rep ⟨.approved, none, none⟩ 7 = .ok r' ∧
      r'.status = .approved ∧ r'.reimbursedAmount = c6rep.totalExpenseAmount ∧
      r'.pendingAmount = 0) ∧
    updateReportStatus ⟨3, .user⟩ c6rep ⟨.approved, some 30, none⟩ 7 =
        .error "Only administrators can approve or reject reports" ∧
    updateReportStatus ⟨9, .admin⟩ c6drafted ⟨.rejected, none, none⟩ 7 =
        .error "Can only approve or reject reports that are in submitted status" := by
  have h60 := c6_approval_rules ⟨9, .admin⟩ c6rep 60 none 7
  have h30 := c6_approval_rules ⟨9, .admin⟩ c6rep 30 none 7
  have hu := c6_approval_rules ⟨3, .user⟩ c6rep 30 none 7
  have hd := c6_approval_rules ⟨9, .admin⟩ c6drafted 30 none 7
  exact ⟨h60.1 rfl rfl (by decide),
         h60.2.1 c6st 4 2025 (by decide) rfl rfl (by decide),
         h30.2.2.1 rfl rfl (by decide),
         h30.2.2.2.1 rfl rfl,
         (hu.2.2.2.2.1 (by decide)).1,
         (hd.2.2.2.2.2 (by decide) rfl).2⟩

def c7limit : BudgetLimit :=
  { amount := 100, period := .monthly, startDate := ⟨2025, 0, 1⟩,
    endDate := ⟨2025, 0, 31⟩, isActive := true, notificationThreshold := 80 }

def c7cat : Category :=
  { name := "Travel", isActive := true, budgetLimits := [c7limit] }

def c7added : BudgetLimit :=
  { amount := 50, period := .monthly, startDate := ⟨2025, 0, 15⟩,
    endDate := ⟨2025, 0, 31⟩, isActive := true, notificationThreshold := 80 }

/-- C7 counterexample: `addBudgetLimit` performs no overlap scan — adding a
second active monthly limit whose range intersects the existing active
monthly limit of the category persists it instead of failing with an overlap
error. -/
theorem c7_counterexample :
    addBudgetLimit c7cat 50 .monthly ⟨2025, 0, 15⟩ none =
      { c7cat with budgetLimits := [c7limit, c7added] } ∧
    c7limit.isActive = true ∧ c7added.isActive = true ∧
    c7added.period = c7limit.period ∧ rangesIntersect c7added c7limit := by
  refine ⟨rfl, rfl, rfl, rfl, by unfold rangesIntersect; decide⟩

/-- C7 (corrected): the overlap invariant is enforced only on the
whole-category path: a successful `createCategory` stores pairwise
compatible limits (no two of the same period kind with intersecting
ranges), while `addBudgetLimit` performs no overlap check and
unconditionally appends the new active limit. -/
theorem c7_create_checks_add_does_not (name : String) (ia : Option Bool)
    (reqs : List LimitRequest) (cat : Category)
    (h : createCategory name ia reqs = .ok cat) :
    cat.budgetLimits.Pairwise limitsCompatible ∧
    ∀ (c : Category) (amount : ℚ) (p : Period) (sd : JSDate) (nt : Option ℚ),
      ∃ l, (addBudgetLimit c amount p sd nt).budgetLimits = c.budgetLimits ++ [l] ∧
        l.period = p ∧ l.startDate = sd ∧ l.isActive = true := by
  constructor
  · unfold createCategory at h
    split at h
    next => cases h
    next ls hls =>
      cases h
      exact processLimitsLoop_pairwise reqs [] ls List.Pairwise.nil hls
  · intro c amount p sd nt
    exact ⟨_, rfl, rfl, rfl, rfl⟩

def c7catW : Category :=
  { name := "Fuel", isActive := true, budgetLimits :=
      [{ amount := 100, period := .monthly, startDate := ⟨2025, 0, 1⟩,
         endDate := ⟨2025, 0, 31⟩, isActive := true, notificationThreshold := 80 }] }

theorem c7_create_checks_add_does_not_witness :
    createCategory "Fuel" none
        [⟨some 100, some .monthly, some ⟨2025, 0, 1⟩, none, none⟩] = .ok c7catW ∧
    (c7catW.budgetLimits.Pairwise limitsCompatible ∧
     ∀ (c : Category) (amount : ℚ) (p : Period) (sd : JSDate) (nt : Option ℚ),
       ∃ l, (addBudgetLimit c amount p sd nt).budgetLimits = c.budgetLimits ++ [l] ∧
         l.period = p ∧ l.startDate = sd ∧ l.isActive = true) :=
  ⟨rfl, c7_create_checks_add_does_not "Fuel" none
    [⟨some 100, some .monthly, some ⟨2025, 0, 1⟩, none, none⟩] c7catW rfl⟩

/-- C8 counterexample: for the mid-month start date 2023-01-15 (month index 0)
the source's monthly endDate derivation (`setMonth(+1)` then `setDate(0)`)
yields 2023-01-31, not the claimed "start plus one month minus one day" =
2023-02-14. -/
theorem c8_counterexample :
    deriveEndDate .monthly ⟨2023, 0, 15⟩ ≠ specEndDate .monthly ⟨2023, 0, 15⟩ ∧
    deriveEndDate .monthly ⟨2023, 0, 15⟩ = ⟨2023, 0, 31⟩ ∧
    specEndDate .monthly ⟨2023, 0, 15⟩ = ⟨2023, 1, 14⟩ := by
  refine ⟨by decide, by decide, by decide⟩

/-- C8 (corrected): `addBudgetLimit` stores
`endDate = deriveEndDate period startDate`, i.e. startDate advanced by 1, 3
or 12 months and the day then set to 0 (the last day of the preceding
month); this equals the claimed "startDate plus the period length minus one
day" exactly when startDate is the first day of a month. -/
theorem c8_enddate_lastday (cat : Category) (amount : ℚ) (p : Period)
    (sd : JSDate) (nt : Option ℚ) :
    ∃ l, (addBudgetLimit cat amount p sd nt).budgetLimits = cat.budgetLimits ++ [l] ∧
      l.endDate = deriveEndDate p sd ∧
      (sd.day = 1 → l.endDate = specEndDate p sd) := by
  refine ⟨_, rfl, rfl, ?_⟩
  intro h
  show deriveEndDate p sd = specEndDate p sd
  obtain ⟨y, m, d⟩ := sd
  have hd : d = 1 := h
  subst hd
  exact deriveEndDate_firstDay p y m

def c8cat : Category := { name := "Ops", isActive := true, budgetLimits := [] }

theorem c8_enddate_lastday_witness :
    (⟨2025, 3, 1⟩ : JSDate).day = 1 ∧
    ∃ l, (addBudgetLimit c8cat 40 .quarterly ⟨2025, 3, 1⟩ none).budgetLimits =
        c8cat.budgetLimits ++ [l] ∧
      l.endDate = deriveEndDate .quarterly ⟨2025, 3, 1⟩ ∧
      ((⟨2025, 3, 1⟩ : JSDate).day = 1 →
        l.endDate = specEndDate .quarterly ⟨2025, 3, 1⟩) :=
  ⟨rfl, c8_enddate_lastday c8cat 40 .quarterly ⟨2025, 3, 1⟩ none⟩

def c9limit : BudgetLimit :=
  { amount := 3, period := .monthly, startDate := ⟨2025, 0, 1⟩,
    endDate := ⟨2025, 0, 31⟩, isActive := true, notificationThreshold := 80 }

def c9exp : Expense :=
  { id := 0, user := 0, category := 5, distance := 1, costPerKm := 1,
    totalCost := 1, journeyDate := ⟨2025, 0, 10⟩ }

/-- C9 counterexample: the reported `percentUsed` is
`Math.round(percent * 100) / 100`, not the exact `usage / amount * 100`:
with usage 1 of amount 3 the query reports 33.33, while the exact percentage
is 100/3. -/
theorem c9_counterexample :
    (usageRecord [c9exp] 5 c9limit).percentUsed ≠
      calculateBudgetUsage [c9exp] 5 c9limit.startDate c9limit.endDate /
        c9limit.amount * 100 := by
  have hl : ([c9exp].filter (fun e =>
      e.category == 5 && dateLe c9limit.startDate e.journeyDate &&
        dateLe e.journeyDate c9limit.endDate)).map Expense.totalCost = [1] := by
    decide
  have hu : calculateBudgetUsage [c9exp] 5 c9limit.startDate c9limit.endDate = 1 := by
    unfold calculateBudgetUsage
    rw [hl]
    norm_num
  unfold usageRecord
  dsimp only
  rw [hu]
  have hj : jsRound ((1 : ℚ) / c9limit.amount * 100 * 100) = 3333 := by
    unfold jsRound
    rw [show ((1 : ℚ) / c9limit.amount * 100 * 100 + 1 / 2) = 20003 / 6 by
      rw [show c9limit.amount = 3 from rfl]; norm_num]
    rw [Int.floor_eq_iff]
    norm_num
  rw [hj]
  rw [show c9limit.amount = 3 from rfl]
  norm_num

/-- C9 (corrected): for each active BudgetLimit the usage query returns
exactly one record; its currentUsage is the inclusive-window expense total,
its alert status follows the exceeded / warning / normal classification
computed from the exact percentage, but the reported `percentUsed` is the
exact percentage rounded to two decimals (`Math.round(p * 100) / 100`), not
the exact value itself. -/
theorem c9_usage_records (es : List Expense) (catId : Nat) (c : Category) :
    (getBudgetUsage es catId c).length =
      (c.budgetLimits.filter (fun l => l.isActive)).length ∧
    ∀ l ∈ c.budgetLimits.filter (fun l => l.isActive),
      usageRecord es catId l ∈ getBudgetUsage es catId c ∧
      (usageRecord es catId l).currentUsage =
        calculateBudgetUsage es catId l.startDate l.endDate ∧
      (usageRecord es catId l).alertStatus =
        specAlertStatus
          (calculateBudgetUsage es catId l.startDate l.endDate / l.amount * 100)
          l.notificationThreshold ∧
      (usageRecord es catId l).percentUsed =
        (jsRound (calculateBudgetUsage es catId l.startDate l.endDate /
          l.amount * 100 * 100) : ℚ) / 100 := by
  refine ⟨by rw [getBudgetUsage, List.length_map], ?_⟩
  intro l hl
  exact ⟨List.mem_map_of_mem _ hl, rfl, usageRecord_alertStatus es catId l, rfl⟩

def c9wlimit : BudgetLimit :=
  { amount := 50, period := .monthly, startDate := ⟨2025, 0, 1⟩,
    endDate := ⟨2025, 0, 31⟩, isActive := true, notificationThreshold := 80 }

def c9wexp : Expense :=
  { id := 0, user := 0, category := 5, distance := 45, costPerKm := 1,
    totalCost := 45, journeyDate := ⟨2025, 0, 10⟩ }

def c9wcat : Category :=
  { name := "Travel", isActive := true, budgetLimits := [c9wlimit] }

theorem c9_usage_records_witness :
    c9wlimit ∈ c9wcat.budgetLimits.filter (fun l => l.isActive) ∧
    (usageRecord [c9wexp] 5 c9wlimit ∈ getBudgetUsage [c9wexp] 5 c9wcat ∧
     (usageRecord [c9wexp] 5 c9wlimit).currentUsage =
       calculateBudgetUsage [c9wexp] 5 c9wlimit.startDate c9wlimit.endDate ∧
     (usageRecord [c9wexp] 5 c9wlimit).alertStatus =
       specAlertStatus
         (calculateBudgetUsage [c9wexp] 5 c9wlimit.startDate c9wlimit.endDate /
           c9wlimit.amount * 100)
         c9wlimit.notificationThreshold ∧
     (usageRecord [c9wexp] 5 c9wlimit).percentUsed =
       (jsRound (calculateBudgetUsage [c9wexp] 5 c9wlimit.startDate c9wlimit.endDate /
         c9wlimit.amount * 100 * 100) : ℚ) / 100) :=
  ⟨by decide, (c9_usage_records [c9wexp] 5 c9wcat).2 c9wlimit (by decide)⟩

def c2ops : List Op :=
  [.createExp 7 100 1 ⟨2025, 0, 10⟩ ⟨2025, 5, 1⟩,
   .updateExp 0 ⟨none, none, none, none, some ⟨2025, 1, 10⟩⟩]

/-- C2 counterexample: moving the only expense of the January report to
February by a journeyDate update leaves the emptied January report in the
store (with an empty reference list) instead of deleting it; only
`deleteExpense` deletes an emptied report. -/
theorem c2_counterexample :
    (findReport (runOps 0 c2ops).reports 1 2025).map Report.expenses = some [] ∧
    (findReport (runOps 0 c2ops).reports 2 2025).map Report.expenses = some [0] := by
  refine ⟨by decide, by decide⟩

/-- C2 (corrected): deleting the last referenced expense of a report removes
the report from the store, but a cross-month journeyDate update that empties
the old report saves the emptied report back (empty reference list) rather
than deleting it. -/
theorem c2_empty_report_fate (s : St) (i : Nat) (e : Expense) (b : UpdateBody)
    (r : Report)
    (hlook : lookupExp s.expenses i = some e)
    (hfind : findReport s.reports (monthOf e.journeyDate) (yearOf e.journeyDate) =
      some r) :
    (r.expenses.filter (fun j => j != i) = [] →
      findReport (deleteExpenseStep s i).reports (monthOf e.journeyDate)
        (yearOf e.journeyDate) = none) ∧
    (¬ (monthOf e.journeyDate =
          monthOf ((recomputeCost e b).journeyDate.getD e.journeyDate) ∧
        yearOf e.journeyDate =
          yearOf ((recomputeCost e b).journeyDate.getD e.journeyDate)) →
      ∃ r', findReport (updateExpenseStep s i b).reports (monthOf e.journeyDate)
          (yearOf e.journeyDate) = some r' ∧
        r'.expenses = r.expenses.filter (fun j => j != i)) := by
  obtain ⟨-, hrm, hry⟩ := findReport_mem hfind
  constructor
  · intro hE
    unfold deleteExpenseStep
    rw [hlook]
    dsimp only
    rw [hfind]
    dsimp only
    rw [if_pos (by rw [demote_expenses]; exact hE)]
    exact findReport_removeReport_self _ _ _
  · intro hcross
    unfold updateExpenseStep
    rw [hlook]
    dsimp only
    rw [if_neg hcross]
    rw [hfind]
    dsimp only
    split
    next newRep hfr =>
      dsimp only
      rw [findReport_saveReport_ne ?hne]
      case hne =>
        rintro ⟨h1, h2⟩
        obtain ⟨-, hm2, hy2⟩ := findReport_mem hfr
        rw [demote_month] at h1
        rw [demote_year] at h2
        exact hcross ⟨(show newRep.month = _ from h1).symm.trans hm2,
                      (show newRep.year = _ from h2).symm.trans hy2⟩
      refine ⟨_, findReport_saveReport_self hfind ?_ ?_, demote_expenses _ _⟩
      · rw [demote_month]; exact hrm
      · rw [demote_year]; exact hry
    next hfr =>
      dsimp only
      refine ⟨_, findReport_append_of_some (findReport_saveReport_self hfind ?_ ?_) _,
        demote_expenses _ _⟩
      · rw [demote_month]; exact hrm
      · rw [demote_year]; exact hry

def c2eD : Expense :=
  { id := 0, user := 0, category := 5, distance := 100, costPerKm := 1,
    totalCost := 100, journeyDate := ⟨2025, 0, 10⟩ }

def c2rD : Report :=
  { user := 0, month := 1, year := 2025, totalDistance := 100,
    totalExpenseAmount := 100, reimbursedAmount := 0, pendingAmount := 100,
    status := .draft, submittedAt := none, approvedAt := none,
    rejectedAt := none, comments := none, expenses := [0] }

def c2sD : St := { owner := 0, nextId := 1, expenses := [c2eD], reports := [c2rD] }

def c2bU : UpdateBody := ⟨none, none, none, none, some ⟨2025, 1, 10⟩⟩

theorem c2_empty_report_fate_witness :
    (c2rD.expenses.filter (fun j => j != 0) = []) ∧
    findReport (deleteExpenseStep c2sD 0).reports (monthOf c2eD.journeyDate)
      (yearOf c2eD.journeyDate) = none ∧
    ∃ r', findReport (updateExpenseStep c2sD 0 c2bU).reports
        (monthOf c2eD.journeyDate) (yearOf c2eD.journeyDate) = some r' ∧
      r'.expenses = c2rD.expenses.filter (fun j => j != 0) := by
  have h := c2_empty_report_fate c2sD 0 c2eD c2bU c2rD (by decide) (by decide)
  exact ⟨by decide, h.1 (by decide), h.2 (by decide)⟩

def c3ops : List Op :=
  [.createExp 4 10 2 ⟨2025, 0, 10⟩ ⟨2025, 5, 1⟩,
   .updateExp 0 ⟨none, none, none, some 999, none⟩]

/-- C3 counterexample: an update request carrying only a totalCost persists
that value unchecked — after creating an expense with distance 10 and
costPerKm 2 and updating it with totalCost 999, the stored expense has
totalCost 999 while distance × costPerKm is 10 × 2 ≠ 999: totalCost is
independently settable through updateExpense. -/
theorem c3_counterexample :
    (lookupExp (runOps 0 c3ops).expenses 0).map Expense.totalCost = some 999 ∧
    (lookupExp (runOps 0 c3ops).expenses 0).map Expense.distance = some 10 ∧
    (lookupExp (runOps 0 c3ops).expenses 0).map Expense.costPerKm = some 2 ∧
    (999 : ℚ) ≠ 10 * 2 := by
  refine ⟨by decide, by decide, by decide, by norm_num⟩

/-- C3 (corrected): the product invariant holds on create (the pre-save hook
stores totalCost = distance * costPerKm) and on updates whose body carries a
truthy (present, non-zero) distance or costPerKm (the controller recomputes
totalCost from the merged fields); an explicit zero in a present field falls
back to the stored field in the recomputation but still overwrites the
document field, and a body carrying only a totalCost bypasses the
recomputation entirely, so both are excluded. -/
theorem c3_product_on_create_and_recompute (s : St) (cat : Nat) (d cpk : ℚ)
    (jd now : JSDate) (e0 : Expense) (b : UpdateBody) :
    (dateLt now jd = false →
      ∃ e, (createExpenseStep s cat d cpk jd now).expenses = s.expenses ++ [e] ∧
        e.distance = d ∧ e.costPerKm = cpk ∧ e.totalCost = d * cpk) ∧
    ((truthyQ b.distance || truthyQ b.costPerKm) = true →
      (b.distance = none ∨ truthyQ b.distance = true) →
      (b.costPerKm = none ∨ truthyQ b.costPerKm = true) →
      (applyUpdateBody e0 (recomputeCost e0 b)).totalCost =
        (applyUpdateBody e0 (recomputeCost e0 b)).distance *
          (applyUpdateBody e0 (recomputeCost e0 b)).costPerKm) := by
  constructor
  · intro hfut
    unfold createExpenseStep
    rw [if_neg (show ¬ (dateLt now jd = true) by rw [hfut]; decide)]
    dsimp only
    split
    next rep hrep => exact ⟨_, rfl, rfl, rfl, rfl⟩
    next hrep => exact ⟨_, rfl, rfl, rfl, rfl⟩
  · intro htr hd hc
    rcases hb1 : b.distance with _ | q1 <;> rcases hb2 : b.costPerKm with _ | q2
    · rw [hb1, hb2] at htr
      simp [truthyQ] at htr
    · rcases hc with h | h
      · rw [hb2] at h; cases h
      · rw [hb2] at h
        have h0 : ¬ q2 = 0 := by simpa [truthyQ] using h
        simp [recomputeCost, applyUpdateBody, htr, hb1, hb2, h0, truthyQ]
    · rcases hd with h | h
      · rw [hb1] at h; cases h
      · rw [hb1] at h
        have h0 : ¬ q1 = 0 := by simpa [truthyQ] using h
        simp [recomputeCost, applyUpdateBody, htr, hb1, hb2, h0, truthyQ]
    · rcases hd with h | h
      · rw [hb1] at h; cases h
      · rcases hc with h' | h'
        · rw [hb2] at h'; cases h'
        · rw [hb1] at h
          rw [hb2] at h'
          have h0 : ¬ q1 = 0 := by simpa [truthyQ] using h
          have h0' : ¬ q2 = 0 := by simpa [truthyQ] using h'
          simp [recomputeCost, applyUpdateBody, htr, hb1, hb2, h0, h0', truthyQ]

def c3we : Expense :=
  { id := 0, user := 0, category := 3, distance := 1, costPerKm := 1,
    totalCost := 1, journeyDate := ⟨2025, 0, 1⟩ }

def c3wb : UpdateBody := ⟨none, some 5, some 2, none, none⟩

theorem c3_product_witness :
    dateLt ⟨2025, 5, 1⟩ ⟨2025, 0, 10⟩ = false ∧
    (truthyQ c3wb.distance || truthyQ c3wb.costPerKm) = true ∧
    (∃ e, (createExpenseStep (initSt 0) 3 10 2 ⟨2025, 0, 10⟩ ⟨2025, 5, 1⟩).expenses =
        (initSt 0).expenses ++ [e] ∧
      e.distance = 10 ∧ e.costPerKm = 2 ∧ e.totalCost = 10 * 2) ∧
    (applyUpdateBody c3we (recomputeCost c3we c3wb)).totalCost =
      (applyUpdateBody c3we (recomputeCost c3we c3wb)).distance *
        (applyUpdateBody c3we (recomputeCost c3we c3wb)).costPerKm := by
  have h := c3_product_on_create_and_recompute (initSt 0) 3 10 2 ⟨2025, 0, 10⟩
      ⟨2025, 5, 1⟩ c3we c3wb
  exact ⟨rfl, by decide, h.1 rfl,
    h.2 (by decide) (Or.inr (by decide)) (Or.inr (by decide))⟩
